import Mathlib

/-!
A shallow embedding of the data-generation engine in `src/app.py`
(`load_valid_values`, `validate_value`, `build_dependency_groups`,
`generate_data`), together with theorems settling the specification claims.

Modelling conventions:
* Python's `re.fullmatch` is modelled by Mathlib's computable
  `RegularExpression.rmatch`, which decides membership of the whole string in
  the pattern's language (full-string match).
* Randomness (`random.choice`) is modelled by an explicit stream
  `rand : Nat → Nat` together with a draw counter `k` that is threaded through
  the computation and incremented at every draw; `random.choice(rows)` at
  counter `k` picks `rows[rand k % rows.length]`.
* The `Faker` instance is modelled as an injected registry
  `fakerFn : String → Option (Nat → String)` (`getattr(faker, tag, None)`);
  a generator call consumes one tick of the same draw counter.
* The filesystem is a map `fs : String → Option (List (List String))` from a
  CSV path to the parsed list of raw rows (`os.path.exists` = `isSome`).
* Python exceptions are modelled by `Except GenError`; `runtimeError` stands
  for the generic `KeyError`/`IndexError`/`TypeError` crash sites of the code
  (dictionary miss, out-of-range cell index, `None` used as an index).
* Python dicts are association lists that preserve insertion order; assigning
  to an existing key updates it in place, as in CPython.
* The `while` retry loops count `retries` upwards exactly like the source; the
  structural `fuel` argument is the remaining loop budget `10 - retries`, so
  `fuel > 0 ↔ retries < 10` at every call (callers start at `fuel = 10`,
  `retries = 0`).
-/

set_option maxRecDepth 4000

abbrev Pattern := RegularExpression Char

/-- The exceptions raised by the engine (`FileNotFoundError` and the various
`ValueError`s of `app.py`), each carrying the data of its f-string message. -/
inductive GenError where
  | sourceNotFound (path : String)
  | emptySource (path : String)
  | inconsistentGroupSource (groupCols : List String)
  | validationExhausted (colName : String)
  | unknownGenerator (dataType colName : String)
  | runtimeError
deriving DecidableEq

/-- One column specification object of the JSON config. -/
structure Column where
  name : String
  position : Int
  data_type : Option String := none
  valid_values_csv : Option String := none
  valid_values_csv_column_index : Option Nat := none
  same_valid_value_row_as_column : Option String := none
  validation_regex : Option Pattern := none

/-- The parts of the JSON config consumed by `generate_data`. -/
structure Config where
  file_size : Option Nat := none
  columns : List Column := []

/-- A generated row: `row_data` as an insertion-ordered association list. -/
abbrev Row := List (String × Option String)

/-- Python truthiness of an optional string (`if col.get(...)`):
`None` and `""` are falsy. -/
def truthy : Option String → Bool
  | none => false
  | some s => decide (s ≠ "")

/-- `validate_value` of `app.py`: `re.fullmatch(pattern, str(value))` when a
pattern is configured, otherwise accept. -/
def validate_value (value : String) (pattern : Option Pattern) : Bool :=
  match pattern with
  | none => true
  | some p => p.rmatch value.toList

/-- `load_valid_values` of `app.py`: missing path raises
`FileNotFoundError`; the first row is skipped (`next(reader, None)`); an empty
remainder raises `ValueError`. -/
def load_valid_values (fs : String → Option (List (List String)))
    (csv_path : String) : Except GenError (List (List String)) :=
  match fs csv_path with
  | none => .error (.sourceNotFound csv_path)
  | some content =>
      let rows := content.drop 1
      if rows = [] then .error (.emptySource csv_path) else .ok rows

/-- `random.choice(rows)` at draw counter `k`.  All reachable call sites pass a
table obtained from `load_valid_values`, which is nonempty, so the `[]`
default is never used there. -/
def pyChoice (rand : Nat → Nat) (k : Nat) (rows : List (List String)) :
    List String :=
  rows.getD (rand k % rows.length) []

/-- `chosen_row[col_index]`; an out-of-range index is an `IndexError`. -/
def cellAt (row : List String) (i : Nat) : Except GenError String :=
  match row.get? i with
  | some v => .ok v
  | none => .error .runtimeError

/-- `row_data[name] = value` with CPython dict semantics: an existing key is
updated in place, a new key is appended. -/
def rowInsert (r : Row) (n : String) (v : Option String) : Row :=
  if r.any (fun p => decide (p.1 = n)) then
    r.map (fun p => if p.1 = n then (p.1, v) else p)
  else r ++ [(n, v)]

/-- Reading `row_data[name]`. -/
def rowLookup (r : Row) (n : String) : Option (Option String) :=
  match r.find? (fun p => decide (p.1 = n)) with
  | some p => some p.2
  | none => none

/-! ### Dependency grouping (`build_dependency_groups`) -/

/-- The undirected adjacency structure: an association list from node to its
insertion-ordered neighbour set (`defaultdict(set)`). -/
abbrev Graph := List (String × List String)

/-- `graph[a].add(b)`: create the key `a` if absent, then add `b` to its
neighbour set if not already present. -/
def addNbr (g : Graph) (a b : String) : Graph :=
  if g.any (fun p => decide (p.1 = a)) then
    g.map (fun p => if p.1 = a then (p.1, if b ∈ p.2 then p.2 else p.2 ++ [b]) else p)
  else g ++ [(a, [b])]

/-- Building the link graph: for each column with a truthy
`same_valid_value_row_as_column`, add both directions of the edge. -/
def buildGraph (cols : List Column) : Graph :=
  cols.foldl
    (fun g col =>
      match col.same_valid_value_row_as_column with
      | none => g
      | some r => if r = "" then g else addNbr (addNbr g col.name r) r col.name)
    []

/-- `graph[node]` inside `dfs` (every node reached there is a key, so the
empty default is never taken on reachable calls). -/
def nbrs (g : Graph) (n : String) : List String :=
  match g.find? (fun p => decide (p.1 = n)) with
  | some p => p.2
  | none => []

/-- The `for neighbor in graph[node]` loop of `dfs`: visit each neighbour that
is not yet in the visited set. -/
def dfsList (step : String → List String × List String → List String × List String) :
    List String → List String × List String → List String × List String
  | [], st => st
  | nb :: rest, st => dfsList step rest (if nb ∈ st.1 then st else step nb st)

/-- The recursive `dfs(node, current_group)` of `app.py`, operating on the
state `(visited, current_group)`.  The structural `fuel` bounds the recursion
depth; every top-level call passes the number of graph keys, which always
suffices (each nested call adds a fresh node to `visited`). -/
def dfsAux (g : Graph) : Nat → String → List String × List String →
    List String × List String
  | 0, _, st => st
  | fuel + 1, node, st =>
      dfsList (fun nb st2 => dfsAux g fuel nb st2) (nbrs g node)
        (node :: st.1, st.2 ++ [node])

/-- The accumulator of the component-collecting loop of
`build_dependency_groups`. -/
structure GroupState where
  visited : List String
  col_to_group : List (String × Nat)
  group_id : Nat
  groups : List (Nat × List String)

/-- The body of the component-collecting loop: skip a visited node, otherwise
run `dfs` from it and register the collected component under a fresh group
id. -/
def bdgStep (g : Graph) (flen : Nat) (st : GroupState) (node : String) :
    GroupState :=
  if node ∈ st.visited then st
  else
    let res := dfsAux g flen node (st.visited, [])
    { visited := res.1
      col_to_group := st.col_to_group ++ res.2.map (fun n => (n, st.group_id))
      group_id := st.group_id + 1
      groups := st.groups ++ [(st.group_id, res.2)] }

/-- `build_dependency_groups` of `app.py`: build the undirected graph, then
collect connected components by depth-first search, assigning fresh group
ids. -/
def build_dependency_groups (cols : List Column) :
    List (String × Nat) × List (Nat × List String) :=
  let g := buildGraph cols
  let ks := g.map (fun p => p.1)
  let final := ks.foldl (bdgStep g ks.length) ⟨[], [], 0, []⟩
  (final.col_to_group, final.groups)

/-! ### `generate_data` -/

abbrev Cache := List (String × List (List String))

/-- Lookup in the `valid_csv_cache` dict. -/
def cacheLookup (cache : Cache) (p : String) : Option (List (List String)) :=
  match cache.find? (fun q => decide (q.1 = p)) with
  | some q => some q.2
  | none => none

/-- The preload loop of `generate_data`: for each column with a truthy
`valid_values_csv` not already cached, load and cache it. -/
def preload (fs : String → Option (List (List String))) :
    List Column → Cache → Except GenError Cache
  | [], cache => .ok cache
  | col :: rest, cache =>
      match col.valid_values_csv with
      | none => preload fs rest cache
      | some p =>
          if p = "" then preload fs rest cache
          else if (cacheLookup cache p).isSome then preload fs rest cache
          else
            match load_valid_values fs p with
            | .error e => .error e
            | .ok rows => preload fs rest (cache ++ [(p, rows)])

/-- `col_config_by_name = {col["name"]: col for col in columns}` as a lookup
function (a later column with the same name wins, as in a dict build). -/
def col_config_by_name (cols : List Column) (n : String) : Option Column :=
  cols.foldl (fun acc c => if c.name = n then some c else acc) none

/-- `{col_config_by_name[name]["valid_values_csv"] for name in group_cols}`
before deduplication; a name without a configured column is a `KeyError`. -/
def groupCsvFiles (cfgByName : String → Option Column) :
    List String → Except GenError (List (Option String))
  | [] => .ok []
  | n :: rest =>
      match cfgByName n with
      | none => .error .runtimeError
      | some c =>
          match groupCsvFiles cfgByName rest with
          | .error e => .error e
          | .ok l => .ok (c.valid_values_csv :: l)

/-- The reference-row validation retry loop
(`while not validate_value(value, regex) and retries < 10:` redraw the row and
re-extract).  Returns the value, the current `chosen_row`, the final `retries`
counter and the advanced draw counter.  `fuel = 10 - retries` is the remaining
budget, so the guard `retries < 10` is `fuel > 0`. -/
def refRetryLoop (rand : Nat → Nat) (validRows : List (List String))
    (colIndex : Nat) (pattern : Option Pattern) :
    Nat → String → List String → Nat → Nat →
      Except GenError (String × List String × Nat × Nat)
  | fuel, value, chosenRow, retries, k =>
      if validate_value value pattern then .ok (value, chosenRow, retries, k)
      else
        match fuel with
        | 0 => .ok (value, chosenRow, retries, k)
        | f + 1 =>
            let newRow := pyChoice rand k validRows
            match cellAt newRow colIndex with
            | .error e => .error e
            | .ok v =>
                refRetryLoop rand validRows colIndex pattern f v newRow
                  (retries + 1) (k + 1)

/-- The semantic-generator retry loop
(`while not validate_value(value, regex) and retries < 10:` regenerate). -/
def fakerRetryLoop (gen : Nat → String) (pattern : Option Pattern) :
    Nat → String → Nat → Nat → String × Nat × Nat
  | fuel, value, retries, k =>
      if validate_value value pattern then (value, retries, k)
      else
        match fuel with
        | 0 => (value, retries, k)
        | f + 1 => fakerRetryLoop gen pattern f (gen k) (retries + 1) (k + 1)

/-- The `for name in group_cols` loop: extract each member's cell from the
(shared, but redraw-mutable) `chosen_row`, validate with per-member retries,
raise `ValidationExhausted` when a member's `retries` reaches 10. -/
def processMembers (rand : Nat → Nat) (cfgByName : String → Option Column)
    (validRows : List (List String)) :
    List String → Row → List String → Nat → Except GenError (Row × List String × Nat)
  | [], row, chosenRow, k => .ok (row, chosenRow, k)
  | name :: rest, row, chosenRow, k =>
      match cfgByName name with
      | none => .error .runtimeError
      | some cfg =>
          match cfg.valid_values_csv_column_index with
          | none => .error .runtimeError
          | some colIndex =>
              match cellAt chosenRow colIndex with
              | .error e => .error e
              | .ok value =>
                  match refRetryLoop rand validRows colIndex
                      cfg.validation_regex 10 value chosenRow 0 k with
                  | .error e => .error e
                  | .ok (v, cr, retries, k2) =>
                      if retries ≥ 10 then .error (.validationExhausted name)
                      else
                        processMembers rand cfgByName validRows rest
                          (rowInsert row name (some v)) cr k2

/-- The per-row column loop of `generate_data`: for each column in `position`
order, resolve its whole dependency group on first contact, or resolve it as a
reference / semantic / null column.  State: the row under construction, the
`processed_groups` set, the draw counter. -/
def processColumns (rand : Nat → Nat) (fakerFn : String → Option (Nat → String))
    (cache : Cache) (ctg : List (String × Nat)) (groups : List (Nat × List String))
    (cfgByName : String → Option Column) :
    List Column → Row → List Nat → Nat → Except GenError (Row × List Nat × Nat)
  | [], row, pg, k => .ok (row, pg, k)
  | col :: rest, row, pg, k =>
      match List.lookup col.name ctg with
      | some grp =>
          if grp ∈ pg then
            processColumns rand fakerFn cache ctg groups cfgByName rest row pg k
          else
            match List.lookup grp groups with
            | none => .error .runtimeError
            | some groupCols =>
                match groupCsvFiles cfgByName groupCols with
                | .error e => .error e
                | .ok files =>
                    match files.dedup with
                    | [ocsv] =>
                        match ocsv with
                        | none => .error .runtimeError
                        | some path =>
                            match cacheLookup cache path with
                            | none => .error .runtimeError
                            | some validRows =>
                                let chosenRow := pyChoice rand k validRows
                                match processMembers rand cfgByName validRows
                                    groupCols row chosenRow (k + 1) with
                                | .error e => .error e
                                | .ok (row2, _, k2) =>
                                    processColumns rand fakerFn cache ctg groups
                                      cfgByName rest row2 (pg ++ [grp]) k2
                    | _ => .error (.inconsistentGroupSource groupCols)
      | none =>
          if truthy col.valid_values_csv then
            match col.valid_values_csv with
            | none => .error .runtimeError
            | some path =>
                match cacheLookup cache path with
                | none => .error .runtimeError
                | some validRows =>
                    let chosenRow := pyChoice rand k validRows
                    match col.valid_values_csv_column_index with
                    | none => .error .runtimeError
                    | some colIndex =>
                        match cellAt chosenRow colIndex with
                        | .error e => .error e
                        | .ok value =>
                            match refRetryLoop rand validRows colIndex
                                col.validation_regex 10 value chosenRow 0 (k + 1) with
                            | .error e => .error e
                            | .ok (v, _, retries, k2) =>
                                if retries ≥ 10 then
                                  .error (.validationExhausted col.name)
                                else
                                  processColumns rand fakerFn cache ctg groups
                                    cfgByName rest (rowInsert row col.name (some v))
                                    pg k2
          else if truthy col.data_type then
            match col.data_type with
            | none => .error .runtimeError
            | some tag =>
                match fakerFn tag with
                | none => .error (.unknownGenerator tag col.name)
                | some gen =>
                    let value := gen k
                    match fakerRetryLoop gen col.validation_regex 10 value 0 (k + 1) with
                    | (v, retries, k2) =>
                        if retries ≥ 10 then .error (.validationExhausted col.name)
                        else
                          processColumns rand fakerFn cache ctg groups cfgByName
                            rest (rowInsert row col.name (some v)) pg k2
          else
            processColumns rand fakerFn cache ctg groups cfgByName rest
              (rowInsert row col.name none) pg k

/-- The `for _ in range(num_rows)` loop: build each row from an empty dict and
an empty `processed_groups` set, appending it to the result. -/
def genRows (rand : Nat → Nat) (fakerFn : String → Option (Nat → String))
    (cache : Cache) (ctg : List (String × Nat)) (groups : List (Nat × List String))
    (cfgByName : String → Option Column) (cols : List Column) :
    Nat → List Row → Nat → Except GenError (List Row × Nat)
  | 0, acc, k => .ok (acc, k)
  | n + 1, acc, k =>
      match processColumns rand fakerFn cache ctg groups cfgByName cols [] [] k with
      | .error e => .error e
      | .ok (row, _, k2) =>
          genRows rand fakerFn cache ctg groups cfgByName cols n (acc ++ [row]) k2

/-- Stable insertion into a position-sorted list (the element goes after all
elements with a position `≤` its own). -/
def insertByPos (c : Column) : List Column → List Column
  | [] => [c]
  | d :: ds => if c.position < d.position then c :: d :: ds else d :: insertByPos c ds

/-- `sorted(columns, key=lambda c: c["position"])`: a stable ascending sort. -/
def sortCols (cols : List Column) : List Column :=
  cols.foldl (fun acc c => insertByPos c acc) []

/-- `generate_data` of `app.py`, also returning the final draw counter (the
number of random draws the run consumed). -/
def generate_data' (rand : Nat → Nat) (fs : String → Option (List (List String)))
    (fakerFn : String → Option (Nat → String)) (config : Config) :
    Except GenError (List Row × Nat) :=
  let num_rows := config.file_size.getD 1000
  let columns := sortCols config.columns
  match preload fs columns [] with
  | .error e => .error e
  | .ok cache =>
      let gg := build_dependency_groups columns
      genRows rand fakerFn cache gg.1 gg.2 (col_config_by_name columns) columns
        num_rows [] 0

/-- `generate_data` of `app.py`: the ordered sequence of generated rows. -/
def generate_data (rand : Nat → Nat) (fs : String → Option (List (List String)))
    (fakerFn : String → Option (Nat → String)) (config : Config) :
    Except GenError (List Row) :=
  (generate_data' rand fs fakerFn config).map (fun p => p.1)

/-- Key insertion in `dict` order (the effect of `rowInsert` on the key
list): no-op when the key is present, append otherwise.  Proof scaffolding
for the key-shape invariants; not part of the source embedding. -/
def insertKey (ks : List String) (n : String) : List String :=
  if n ∈ ks then ks else ks ++ [n]

/-- The key list produced by resolving a member list (proof scaffolding). -/
def keySeqMembers (ks : List String) (names : List String) : List String :=
  names.foldl insertKey ks

/-- The key list and processed-group list produced by the per-row column
loop.  This is a pure function of the static grouping data: it does not
depend on the random stream, the cache contents or the faker registry
(proof scaffolding). -/
def keySeqCols (ctg : List (String × Nat)) (groups : List (Nat × List String)) :
    List Column → List String → List Nat → List String × List Nat
  | [], ks, pg => (ks, pg)
  | col :: rest, ks, pg =>
      match List.lookup col.name ctg with
      | some grp =>
          if grp ∈ pg then keySeqCols ctg groups rest ks pg
          else
            match List.lookup grp groups with
            | some groupCols =>
                keySeqCols ctg groups rest (keySeqMembers ks groupCols)
                  (pg ++ [grp])
            | none => keySeqCols ctg groups rest ks pg
      | none => keySeqCols ctg groups rest (insertKey ks col.name) pg

/-- The key list of the adjacency structure (proof scaffolding). -/
def graphKeys (g : Graph) : List String := g.map (fun p => p.1)

/-- The number of graph keys not yet visited (proof scaffolding for the
depth-first-search fuel bound). -/
def cardFree (ks : List String) (v : List String) : Nat :=
  (ks.toFinset.filter (fun x => x ∉ v)).card

/-- The invariant bundle maintained by the component-collecting loop of
`build_dependency_groups` (proof scaffolding): the visited set is closed
under edges and contained in the graph keys; every edge out of a visited
node lies inside one registered component; component membership determines
the `col_to_group` entry; the `col_to_group` domain is visited; and all
registered group ids are below the fresh id. -/
def bdgInv (g : Graph) (st : GroupState) : Prop :=
  (∀ x ∈ st.visited, ∀ y ∈ nbrs g x, y ∈ st.visited) ∧
  (∀ x ∈ st.visited, x ∈ graphKeys g) ∧
  (∀ x y, y ∈ nbrs g x → x ∈ st.visited →
    ∃ gid comp, List.lookup gid st.groups = some comp ∧ x ∈ comp ∧
      y ∈ comp) ∧
  (∀ gid comp, List.lookup gid st.groups = some comp →
    ∀ n ∈ comp, List.lookup n st.col_to_group = some gid) ∧
  (∀ n gid, List.lookup n st.col_to_group = some gid → n ∈ st.visited) ∧
  (∀ p ∈ st.groups, p.1 < st.group_id)

/-- A regular expression matching exactly the string `s` (used to build
concrete validation patterns in witnesses). -/
def strRe (s : String) : Pattern :=
  s.toList.foldr
    (fun c r => RegularExpression.comp (RegularExpression.char c) r)
    RegularExpression.epsilon

/-! ### Basic lemmas about the drawing and caching helpers -/

lemma pyChoice_mem (rand : Nat → Nat) (k : Nat) (rows : List (List String))
    (h : rows ≠ []) : pyChoice rand k rows ∈ rows := by
  have hlen : 0 < rows.length := List.length_pos.mpr h
  have hlt : rand k % rows.length < rows.length := Nat.mod_lt _ hlen
  simp only [pyChoice, List.getD_eq_getElem?_getD, List.getElem?_eq_getElem hlt,
    Option.getD_some]
  exact List.getElem_mem hlt

lemma cacheLookup_nil (p : String) : cacheLookup [] p = none := rfl

lemma cacheLookup_append_left (c d : Cache) (q : String)
    (h : (cacheLookup c q).isSome) : cacheLookup (c ++ d) q = cacheLookup c q := by
  induction c with
  | nil => simp [cacheLookup] at h
  | cons e c ih =>
      by_cases he : e.1 = q
      · simp [cacheLookup, List.find?_cons, he]
      · simp only [cacheLookup, List.cons_append, List.find?_cons, he,
          decide_eq_false, Bool.false_eq_true, if_false] at *
        exact ih h

lemma cacheLookup_append_self (c : Cache) (p : String) (rows : List (List String))
    (h : cacheLookup c p = none) :
    cacheLookup (c ++ [(p, rows)]) p = some rows := by
  induction c with
  | nil => simp [cacheLookup, List.find?_cons]
  | cons e c ih =>
      by_cases he : e.1 = p
      · simp [cacheLookup, List.find?_cons, he] at h
      · simp only [cacheLookup, List.cons_append, List.find?_cons, he,
          decide_eq_false, Bool.false_eq_true, if_false] at *
        exact ih h

/-! ### Lemmas about the preload phase -/

lemma load_valid_values_some (fs : String → Option (List (List String)))
    (p : String) (content : List (List String)) (h : fs p = some content) :
    load_valid_values fs p =
      if content.drop 1 = [] then .error (.emptySource p)
      else .ok (content.drop 1) := by
  unfold load_valid_values
  rw [h]

lemma load_valid_values_isSome (fs : String → Option (List (List String)))
    (p : String) (rows : List (List String))
    (h : load_valid_values fs p = .ok rows) : (fs p).isSome := by
  unfold load_valid_values at h
  cases hfs : fs p with
  | none => rw [hfs] at h; exact absurd h (by simp)
  | some content => simp [hfs]

lemma load_valid_values_ne_nil (fs : String → Option (List (List String)))
    (p : String) (rows : List (List String))
    (h : load_valid_values fs p = .ok rows) : rows ≠ [] := by
  cases hfs : fs p with
  | none => unfold load_valid_values at h; rw [hfs] at h; exact absurd h (by simp)
  | some content =>
      rw [load_valid_values_some fs p content hfs] at h
      by_cases hd : content.drop 1 = []
      · rw [if_pos hd] at h; exact absurd h (by simp)
      · rw [if_neg hd] at h
        injection h with h2
        rw [← h2]
        exact hd

lemma preload_cons_none (fs : String → Option (List (List String)))
    (col : Column) (rest : List Column) (cache : Cache)
    (h : col.valid_values_csv = none) :
    preload fs (col :: rest) cache = preload fs rest cache := by
  simp [preload, h]

lemma preload_cons_some (fs : String → Option (List (List String)))
    (col : Column) (rest : List Column) (cache : Cache) (p : String)
    (h : col.valid_values_csv = some p) :
    preload fs (col :: rest) cache =
      if p = "" then preload fs rest cache
      else if (cacheLookup cache p).isSome then preload fs rest cache
      else
        match load_valid_values fs p with
        | .error e => .error e
        | .ok rows => preload fs rest (cache ++ [(p, rows)]) := by
  simp [preload, h]

lemma cacheLookup_append_other (c : Cache) (p q : String)
    (rows : List (List String)) (h : q ≠ p) :
    cacheLookup (c ++ [(p, rows)]) q = cacheLookup c q := by
  induction c with
  | nil =>
      simp [cacheLookup, List.find?_cons, show ¬(p = q) from fun hh => h hh.symm]
  | cons e c0 ih =>
      by_cases he : e.1 = q
      · simp [cacheLookup, List.find?_cons, he]
      · simp only [cacheLookup, List.cons_append, List.find?_cons, he,
          decide_eq_false, Bool.false_eq_true, if_false] at *
        exact ih

lemma preload_mono (fs : String → Option (List (List String)))
    (cols : List Column) :
    ∀ cache0 cache1 q, preload fs cols cache0 = .ok cache1 →
      (cacheLookup cache0 q).isSome → (cacheLookup cache1 q).isSome := by
  induction cols with
  | nil =>
      intro cache0 cache1 q h hq
      simp only [preload] at h
      cases h; exact hq
  | cons col rest ih =>
      intro cache0 cache1 q h hq
      cases hcsv : col.valid_values_csv with
      | none => rw [preload_cons_none fs col rest cache0 hcsv] at h; exact ih _ _ _ h hq
      | some p =>
          rw [preload_cons_some fs col rest cache0 p hcsv] at h
          by_cases hp : p = ""
          · rw [if_pos hp] at h; exact ih _ _ _ h hq
          · rw [if_neg hp] at h
            by_cases hc : (cacheLookup cache0 p).isSome
            · rw [if_pos hc] at h; exact ih _ _ _ h hq
            · rw [if_neg hc] at h
              cases hl : load_valid_values fs p with
              | error e => rw [hl] at h; exact absurd h (by simp)
              | ok rows =>
                  rw [hl] at h
                  refine ih _ _ _ h ?_
                  by_cases hq0 : q = p
                  · subst hq0
                    rw [cacheLookup_append_self _ _ _
                      (Option.not_isSome_iff_eq_none.mp hc)]
                    simp
                  · rw [cacheLookup_append_other _ _ _ _ hq0]
                    exact hq

lemma preload_covers (fs : String → Option (List (List String)))
    (cols : List Column) :
    ∀ cache0 cache1, preload fs cols cache0 = .ok cache1 →
      ∀ col ∈ cols, ∀ p, col.valid_values_csv = some p → p ≠ "" →
        (cacheLookup cache1 p).isSome := by
  induction cols with
  | nil => intro _ _ _ col hcol; simp at hcol
  | cons c rest ih =>
      intro cache0 cache1 h col hcol p hp hpne
      rcases List.mem_cons.mp hcol with hc | hc
      · subst hc
        rw [preload_cons_some fs col rest cache0 p hp] at h
        rw [if_neg hpne] at h
        by_cases hcach : (cacheLookup cache0 p).isSome
        · rw [if_pos hcach] at h
          exact preload_mono fs rest _ _ _ h hcach
        · rw [if_neg hcach] at h
          cases hl : load_valid_values fs p with
          | error e => rw [hl] at h; exact absurd h (by simp)
          | ok rows =>
              rw [hl] at h
              refine preload_mono fs rest _ _ _ h ?_
              rw [cacheLookup_append_self _ _ _
                (Option.not_isSome_iff_eq_none.mp hcach)]
              simp
      · cases hcsv : c.valid_values_csv with
        | none => rw [preload_cons_none fs c rest cache0 hcsv] at h
                  exact ih _ _ h col hc p hp hpne
        | some q =>
            rw [preload_cons_some fs c rest cache0 q hcsv] at h
            by_cases hq : q = ""
            · rw [if_pos hq] at h; exact ih _ _ h col hc p hp hpne
            · rw [if_neg hq] at h
              by_cases hcach : (cacheLookup cache0 q).isSome
              · rw [if_pos hcach] at h; exact ih _ _ h col hc p hp hpne
              · rw [if_neg hcach] at h
                cases hl : load_valid_values fs q with
                | error e => rw [hl] at h; exact absurd h (by simp)
                | ok rows => rw [hl] at h; exact ih _ _ h col hc p hp hpne

lemma preload_sound (fs : String → Option (List (List String)))
    (cols : List Column) :
    ∀ cache0 cache1 q, preload fs cols cache0 = .ok cache1 →
      (cacheLookup cache1 q).isSome →
      (cacheLookup cache0 q).isSome ∨ (fs q).isSome := by
  induction cols with
  | nil =>
      intro cache0 cache1 q h hq
      simp only [preload] at h; cases h; exact Or.inl hq
  | cons col rest ih =>
      intro cache0 cache1 q h hq
      cases hcsv : col.valid_values_csv with
      | none => rw [preload_cons_none fs col rest cache0 hcsv] at h; exact ih _ _ _ h hq
      | some p =>
          rw [preload_cons_some fs col rest cache0 p hcsv] at h
          by_cases hp : p = ""
          · rw [if_pos hp] at h; exact ih _ _ _ h hq
          · rw [if_neg hp] at h
            by_cases hc : (cacheLookup cache0 p).isSome
            · rw [if_pos hc] at h; exact ih _ _ _ h hq
            · rw [if_neg hc] at h
              cases hl : load_valid_values fs p with
              | error e => rw [hl] at h; exact absurd h (by simp)
              | ok rows =>
                  rw [hl] at h
                  rcases ih _ _ _ h hq with hq0 | hq0
                  · by_cases hqp : q = p
                    · subst hqp
                      exact Or.inr (load_valid_values_isSome fs _ _ hl)
                    · rw [cacheLookup_append_other _ _ _ _ hqp] at hq0
                      exact Or.inl hq0
                  · exact Or.inr hq0

/-! ### The stable sort -/

lemma insertByPos_perm (c : Column) (l : List Column) :
    (insertByPos c l).Perm (c :: l) := by
  induction l with
  | nil => simp [insertByPos]
  | cons d ds ih =>
      by_cases h : c.position < d.position
      · simp [insertByPos, h]
      · simp only [insertByPos, if_neg h]
        exact (List.Perm.cons d ih).trans (List.Perm.swap c d ds)

lemma sortCols_foldl_perm (cols : List Column) :
    ∀ acc, (List.foldl (fun a c => insertByPos c a) acc cols).Perm (acc ++ cols) := by
  induction cols with
  | nil => intro acc; simp
  | cons c rest ih =>
      intro acc
      refine (ih (insertByPos c acc)).trans ?_
      refine (List.Perm.append_right rest (insertByPos_perm c acc)).trans ?_
      exact List.perm_middle.symm

lemma sortCols_perm (cols : List Column) : (sortCols cols).Perm cols := by
  simpa using sortCols_foldl_perm cols []

lemma mem_sortCols (cols : List Column) (c : Column) (h : c ∈ cols) :
    c ∈ sortCols cols := ((sortCols_perm cols).mem_iff).mpr h

/-- Any successful run has a successful preload. -/
lemma generate_data_ok_preload (rand : Nat → Nat)
    (fs : String → Option (List (List String)))
    (fakerFn : String → Option (Nat → String)) (cfg : Config)
    (rows : List Row) (h : generate_data rand fs fakerFn cfg = .ok rows) :
    ∃ cache, preload fs (sortCols cfg.columns) [] = .ok cache := by
  simp only [generate_data, generate_data'] at h
  cases hp : preload fs (sortCols cfg.columns) [] with
  | error e => rw [hp] at h; simp [Except.map] at h
  | ok cache => exact ⟨cache, rfl⟩

/-- C6: loading a missing source raises `SourceNotFound`; a table with zero
data rows after header removal raises `EmptySource`; and because every
referenced source is preloaded before the generation loop, a missing source
makes the whole run fail (for every requested row count, including zero) —
no rows are ever produced. -/
theorem c6_loader_errors_and_preload_abort :
    (∀ (fs : String → Option (List (List String))) (p : String), fs p = none →
        load_valid_values fs p = .error (.sourceNotFound p)) ∧
    (∀ (fs : String → Option (List (List String))) (p : String)
        (content : List (List String)), fs p = some content →
        content.drop 1 = [] →
        load_valid_values fs p = .error (.emptySource p)) ∧
    (∀ (rand : Nat → Nat) (fs : String → Option (List (List String)))
        (fakerFn : String → Option (Nat → String)) (cfg : Config),
        (∃ col ∈ cfg.columns, ∃ p, col.valid_values_csv = some p ∧ p ≠ "" ∧
          fs p = none) →
        ∀ rows, generate_data rand fs fakerFn cfg ≠ .ok rows) := by
  refine ⟨?_, ?_, ?_⟩
  · intro fs p h
    unfold load_valid_values
    rw [h]
  · intro fs p content hfs hd
    rw [load_valid_values_some fs p content hfs, if_pos hd]
  · rintro rand fs fakerFn cfg ⟨col, hcol, p, hcsv, hpne, hmiss⟩ rows hok
    obtain ⟨cache, hpre⟩ := generate_data_ok_preload rand fs fakerFn cfg rows hok
    have hcov := preload_covers fs (sortCols cfg.columns) [] cache hpre col
      (mem_sortCols _ _ hcol) p hcsv hpne
    rcases preload_sound fs (sortCols cfg.columns) [] cache p hpre hcov with h0 | h0
    · rw [cacheLookup_nil] at h0; exact absurd h0 (by simp)
    · rw [hmiss] at h0; exact absurd h0 (by simp)

/-- Witness for C6 at a concrete input: a configuration whose only column
references the missing source `"t"` fails, and the loader errors are hit. -/
theorem c6_witness :
    load_valid_values (fun _ => none) "t" = .error (.sourceNotFound "t") ∧
    load_valid_values (fun _ => some [["header"]]) "t" =
      .error (.emptySource "t") ∧
    generate_data (fun _ => 0) (fun _ => none) (fun _ => none)
      { file_size := some 0,
        columns := [{ name := "a", position := 1, valid_values_csv := some "t",
                      valid_values_csv_column_index := some 0 }] } ≠
      .ok [] :=
  ⟨c6_loader_errors_and_preload_abort.1 _ "t" rfl,
   c6_loader_errors_and_preload_abort.2.1 _ "t" [["header"]] rfl rfl,
   c6_loader_errors_and_preload_abort.2.2 (fun _ => 0) _ (fun _ => none) _
     ⟨_, List.mem_singleton.mpr rfl, "t", rfl, by decide, rfl⟩ []⟩

/-- C10: `load_valid_values` discards the first row of every source file
unconditionally — the result depends only on the remaining rows, whether or
not the first row is a header — so a one-row source loads zero data rows and
fails with the empty-source error. -/
theorem c10_header_always_discarded :
    (∀ (fs1 fs2 : String → Option (List (List String))) (p : String)
        (first1 first2 : List String) (rest : List (List String)),
        fs1 p = some (first1 :: rest) → fs2 p = some (first2 :: rest) →
        load_valid_values fs1 p = load_valid_values fs2 p) ∧
    (∀ (fs : String → Option (List (List String))) (p : String)
        (r : List String), fs p = some [r] →
        load_valid_values fs p = .error (.emptySource p)) := by
  constructor
  · intro fs1 fs2 p first1 first2 rest h1 h2
    rw [load_valid_values_some fs1 p _ h1, load_valid_values_some fs2 p _ h2]
    simp
  · intro fs p r h
    rw [load_valid_values_some fs p _ h]
    simp

/-- Witness for C10 at a concrete input: a source whose single row is real
data (clearly not a header) still loads as empty. -/
theorem c10_witness :
    load_valid_values (fun _ => some [["US", "NYC"]]) "ref.csv" =
      .error (.emptySource "ref.csv") :=
  c10_header_always_discarded.2 (fun _ => some [["US", "NYC"]]) "ref.csv"
    ["US", "NYC"] rfl

/-! ### Lemmas about the retry loops -/

/-- With the budget exhausted (`fuel = 0`, i.e. `retries = 10`), the loop
returns its state unchanged whether or not the current value validates. -/
lemma refRetryLoop_zero (rand : Nat → Nat) (tbl : List (List String))
    (idx : Nat) (pat : Option Pattern) (value : String) (row : List String)
    (retries k : Nat) :
    refRetryLoop rand tbl idx pat 0 value row retries k =
      .ok (value, row, retries, k) := by
  unfold refRetryLoop
  by_cases h : validate_value value pat <;> simp [h]

/-- One unfolding step of the loop at positive budget. -/
lemma refRetryLoop_succ (rand : Nat → Nat) (tbl : List (List String))
    (idx : Nat) (pat : Option Pattern) (f : Nat) (value : String)
    (row : List String) (retries k : Nat) :
    refRetryLoop rand tbl idx pat (f + 1) value row retries k =
      if validate_value value pat then .ok (value, row, retries, k)
      else
        match cellAt (pyChoice rand k tbl) idx with
        | .error e => .error e
        | .ok v =>
            refRetryLoop rand tbl idx pat f v (pyChoice rand k tbl)
              (retries + 1) (k + 1) := rfl

/-- Counting lemma: a successful exit of the retry loop has performed
`ret - retries` redraws, each consuming one draw of the stream, and never
more than `fuel` of them. -/
lemma refRetryLoop_counts (rand : Nat → Nat) (tbl : List (List String))
    (idx : Nat) (pat : Option Pattern) :
    ∀ fuel value row retries k v r ret k2,
      refRetryLoop rand tbl idx pat fuel value row retries k =
        .ok (v, r, ret, k2) →
      retries ≤ ret ∧ ret ≤ retries + fuel ∧ k2 = k + (ret - retries) := by
  intro fuel
  induction fuel with
  | zero =>
      intro value row retries k v r ret k2 h
      rw [refRetryLoop_zero] at h
      simp only [Except.ok.injEq, Prod.mk.injEq] at h
      omega
  | succ f ih =>
      intro value row retries k v r ret k2 h
      rw [refRetryLoop_succ] at h
      by_cases hv : validate_value value pat
      · rw [if_pos hv] at h
        simp only [Except.ok.injEq, Prod.mk.injEq] at h
        omega
      · rw [if_neg hv] at h
        cases hc : cellAt (pyChoice rand k tbl) idx with
        | error e => rw [hc] at h; exact absurd h (by simp)
        | ok nv =>
            rw [hc] at h
            have := ih nv (pyChoice rand k tbl) (retries + 1) (k + 1) v r ret k2 h
            omega

/-- An exit with `ret < retries + fuel` can only happen because the value
validates. -/
lemma refRetryLoop_valid_of_lt (rand : Nat → Nat) (tbl : List (List String))
    (idx : Nat) (pat : Option Pattern) :
    ∀ fuel value row retries k v r ret k2,
      refRetryLoop rand tbl idx pat fuel value row retries k =
        .ok (v, r, ret, k2) →
      ret < retries + fuel → validate_value v pat = true := by
  intro fuel
  induction fuel with
  | zero =>
      intro value row retries k v r ret k2 h hlt
      rw [refRetryLoop_zero] at h
      simp only [Except.ok.injEq, Prod.mk.injEq] at h
      omega
  | succ f ih =>
      intro value row retries k v r ret k2 h hlt
      rw [refRetryLoop_succ] at h
      by_cases hv : validate_value value pat
      · rw [if_pos hv] at h
        simp only [Except.ok.injEq, Prod.mk.injEq] at h
        rw [← h.1]
        exact hv
      · rw [if_neg hv] at h
        cases hc : cellAt (pyChoice rand k tbl) idx with
        | error e => rw [hc] at h; exact absurd h (by simp)
        | ok nv =>
            rw [hc] at h
            have hcount := refRetryLoop_counts rand tbl idx pat f nv
              (pyChoice rand k tbl) (retries + 1) (k + 1) v r ret k2 h
            exact ih nv (pyChoice rand k tbl) (retries + 1) (k + 1) v r ret k2 h
              (by omega)

/-- Exhaustion lemma: if the current value is invalid and every value drawn
at counters `k, k+1, …` (except possibly the last one) is invalid, the loop
runs its entire budget: it returns with `retries + fuel` retries, having
consumed exactly `fuel` draws. -/
lemma refRetryLoop_exhaust (rand : Nat → Nat) (tbl : List (List String))
    (idx : Nat) (pat : Option Pattern) :
    ∀ fuel value row retries k,
      validate_value value pat = false →
      (∀ j, j < fuel → ∃ v, (pyChoice rand (k + j) tbl).get? idx = some v ∧
        (j + 1 < fuel → validate_value v pat = false)) →
      ∃ v r, refRetryLoop rand tbl idx pat fuel value row retries k =
        .ok (v, r, retries + fuel, k + fuel) ∧
        (1 ≤ fuel → (pyChoice rand (k + fuel - 1) tbl).get? idx = some v) := by
  intro fuel
  induction fuel with
  | zero =>
      intro value row retries k hv _
      exact ⟨value, row, by rw [refRetryLoop_zero]; norm_num, by omega⟩
  | succ f ih =>
      intro value row retries k hv hdraws
      obtain ⟨v0, hcell, hval0⟩ := hdraws 0 (Nat.succ_pos f)
      have hcell2 : cellAt (pyChoice rand k tbl) idx = .ok v0 := by
        unfold cellAt
        rw [show k + 0 = k from rfl] at hcell
        rw [hcell]
      cases f with
      | zero =>
          refine ⟨v0, pyChoice rand k tbl, ?_, ?_⟩
          · rw [refRetryLoop_succ, if_neg (by simp [hv]), hcell2]
            show refRetryLoop rand tbl idx pat 0 v0 (pyChoice rand k tbl)
                (retries + 1) (k + 1) = _
            rw [refRetryLoop_zero]
          · intro _
            rw [show k + (0 + 1) - 1 = k + 0 by omega]
            exact hcell
      | succ f2 =>
          have hv0 : validate_value v0 pat = false := hval0 (by omega)
          have hdraws2 : ∀ j, j < f2 + 1 →
              ∃ v, (pyChoice rand (k + 1 + j) tbl).get? idx = some v ∧
                (j + 1 < f2 + 1 → validate_value v pat = false) := by
            intro j hj
            obtain ⟨w, hw, hwv⟩ := hdraws (j + 1) (by omega)
            refine ⟨w, ?_, fun hlt => hwv (by omega)⟩
            rw [show k + 1 + j = k + (j + 1) by omega]
            exact hw
          obtain ⟨v, r, hrec, hlast⟩ := ih v0 (pyChoice rand k tbl) (retries + 1)
            (k + 1) hv0 hdraws2
          refine ⟨v, r, ?_, ?_⟩
          · rw [refRetryLoop_succ, if_neg (by simp [hv]), hcell2]
            show refRetryLoop rand tbl idx pat (f2 + 1) v0 (pyChoice rand k tbl)
                (retries + 1) (k + 1) = _
            rw [hrec]
            have e1 : retries + 1 + (f2 + 1) = retries + (f2 + 1 + 1) := by omega
            have e2 : k + 1 + (f2 + 1) = k + (f2 + 1 + 1) := by omega
            rw [e1, e2]
          · intro _
            rw [show k + (f2 + 1 + 1) - 1 = k + 1 + (f2 + 1) - 1 by omega]
            exact hlast (by omega)

/-! ### Evaluating a run over a single reference column -/

/-- Unfolding of `processColumns` at an ungrouped reference column. -/
lemma processColumns_ref_step (rand : Nat → Nat)
    (fakerFn : String → Option (Nat → String)) (cache : Cache)
    (ctg : List (String × Nat)) (groups : List (Nat × List String))
    (cfgByName : String → Option Column) (col : Column) (rest : List Column)
    (row : Row) (pg : List Nat) (k : Nat) (path : String) (idx : Nat)
    (tbl : List (List String))
    (hn : List.lookup col.name ctg = none)
    (hcsv : col.valid_values_csv = some path) (hpne : path ≠ "")
    (hcache : cacheLookup cache path = some tbl)
    (hidx : col.valid_values_csv_column_index = some idx) :
    processColumns rand fakerFn cache ctg groups cfgByName (col :: rest) row pg k =
      match cellAt (pyChoice rand k tbl) idx with
      | .error e => .error e
      | .ok value =>
          match refRetryLoop rand tbl idx col.validation_regex 10 value
              (pyChoice rand k tbl) 0 (k + 1) with
          | .error e => .error e
          | .ok (v, _, retries, k2) =>
              if retries ≥ 10 then .error (.validationExhausted col.name)
              else
                processColumns rand fakerFn cache ctg groups cfgByName rest
                  (rowInsert row col.name (some v)) pg k2 := by
  have ht : truthy (some path) = true := by simp [truthy, hpne]
  simp only [processColumns, hn, hcsv, ht, hcache, hidx, if_true]

/-- Evaluation of a whole run whose configuration is one ungrouped reference
column, down to the first row's retry loop. -/
lemma generate_single_ref (rand : Nat → Nat)
    (fs : String → Option (List (List String)))
    (fakerFn : String → Option (Nat → String)) (col : Column) (path : String)
    (idx : Nat) (content : List (List String)) (m : Nat)
    (hcsv : col.valid_values_csv = some path) (hpne : path ≠ "")
    (hidx : col.valid_values_csv_column_index = some idx)
    (hlink : col.same_valid_value_row_as_column = none)
    (hfs : fs path = some content) (htbl : content.drop 1 ≠ []) :
    generate_data' rand fs fakerFn { file_size := some (m + 1), columns := [col] } =
      match processColumns rand fakerFn [(path, content.drop 1)] [] []
          (col_config_by_name [col]) [col] [] [] 0 with
      | .error e => .error e
      | .ok (row, _, k2) =>
          genRows rand fakerFn [(path, content.drop 1)] [] []
            (col_config_by_name [col]) [col] m [row] k2 := by
  have hsort : sortCols [col] = [col] := rfl
  have hpre : preload fs [col] [] = .ok [(path, content.drop 1)] := by
    rw [preload_cons_some fs col [] [] path hcsv, if_neg hpne]
    rw [cacheLookup_nil]
    simp only [Option.isSome_none, Bool.false_eq_true, if_false]
    rw [load_valid_values_some fs path content hfs, if_neg htbl]
    rfl
  have hgroups : build_dependency_groups [col] = ([], []) := by
    have hg : buildGraph [col] = [] := by simp [buildGraph, hlink]
    simp [build_dependency_groups, hg]
  simp only [generate_data', hsort, hpre, hgroups, Option.getD_some]
  simp only [genRows, List.nil_append]

/-- C3: with a validation pattern that no value in the reference table can
satisfy, the run aborts with `ValidationExhausted` (for any requested row
count ≥ 1) and emits no rows; and the retry loop performs exactly 10 redraws
— never fewer, never more — before the raise: from any invalid starting
value it exits with `retries = 10` having consumed exactly 10 draws. -/
theorem c3_unsatisfiable_pattern_aborts_after_ten
    (rand : Nat → Nat) (fs : String → Option (List (List String)))
    (fakerFn : String → Option (Nat → String)) (col : Column) (path : String)
    (idx : Nat) (p : Pattern) (content : List (List String)) (m : Nat)
    (hcsv : col.valid_values_csv = some path) (hpne : path ≠ "")
    (hidx : col.valid_values_csv_column_index = some idx)
    (hpat : col.validation_regex = some p)
    (hlink : col.same_valid_value_row_as_column = none)
    (hfs : fs path = some content) (htbl : content.drop 1 ≠ [])
    (hbad : ∀ row ∈ content.drop 1, ∃ v, row.get? idx = some v ∧
      p.rmatch v.toList = false) :
    generate_data rand fs fakerFn { file_size := some (m + 1), columns := [col] } =
      .error (.validationExhausted col.name) ∧
    (∀ rows, generate_data rand fs fakerFn
      { file_size := some (m + 1), columns := [col] } ≠ .ok rows) ∧
    (∀ value chosenRow k, p.rmatch value.toList = false →
      ∃ v r, refRetryLoop rand (content.drop 1) idx (some p) 10 value chosenRow
        0 k = .ok (v, r, 10, k + 10)) := by
  have hloop : ∀ value chosenRow k, p.rmatch value.toList = false →
      ∃ v r, refRetryLoop rand (content.drop 1) idx (some p) 10 value chosenRow
        0 k = .ok (v, r, 10, k + 10) := by
    intro value chosenRow k hval
    have hdraws : ∀ j, j < 10 →
        ∃ v, (pyChoice rand (k + j) (content.drop 1)).get? idx = some v ∧
          (j + 1 < 10 → validate_value v (some p) = false) := by
      intro j _
      obtain ⟨v, hv1, hv2⟩ := hbad (pyChoice rand (k + j) (content.drop 1))
        (pyChoice_mem rand (k + j) (content.drop 1) htbl)
      exact ⟨v, hv1, fun _ => by simpa [validate_value, String.toList] using hv2⟩
    obtain ⟨v, r, hrun, _⟩ := refRetryLoop_exhaust rand (content.drop 1) idx
      (some p) 10 value chosenRow 0 k
      (by simpa [validate_value, String.toList] using hval) hdraws
    exact ⟨v, r, by simpa using hrun⟩
  have hmain : generate_data rand fs fakerFn
      { file_size := some (m + 1), columns := [col] } =
      .error (.validationExhausted col.name) := by
    obtain ⟨v0, hv0get, hv0bad⟩ := hbad (pyChoice rand 0 (content.drop 1))
      (pyChoice_mem rand 0 (content.drop 1) htbl)
    have hcell : cellAt (pyChoice rand 0 (content.drop 1)) idx = .ok v0 := by
      unfold cellAt; rw [hv0get]
    obtain ⟨v, r, hrun⟩ := hloop v0 (pyChoice rand 0 (content.drop 1)) 1 hv0bad
    unfold generate_data
    rw [generate_single_ref rand fs fakerFn col path idx content m hcsv hpne
      hidx hlink hfs htbl]
    rw [processColumns_ref_step rand fakerFn [(path, content.drop 1)] [] []
      (col_config_by_name [col]) col [] [] [] 0 path idx (content.drop 1) rfl
      hcsv hpne (by simp [cacheLookup, List.find?_cons]) hidx]
    rw [hpat]
    simp only [hcell, hrun, ge_iff_le, le_refl, if_true, Except.map]
  refine ⟨hmain, ?_, hloop⟩
  intro rows h
  rw [hmain] at h
  cases h

/-- Witness for C3 at a concrete input: pattern `Q` over a table whose cells
are `x` and `y`. -/
theorem c3_witness :
    generate_data (fun _ => 0)
      (fun q => if q = "t" then some [["h"], ["x"], ["y"]] else none)
      (fun _ => none)
      { file_size := some 1,
        columns := [{ name := "a", position := 1, valid_values_csv := some "t",
                      valid_values_csv_column_index := some 0,
                      validation_regex := some (.char 'Q') }] } =
      .error (.validationExhausted "a") :=
  (c3_unsatisfiable_pattern_aborts_after_ten (fun _ => 0) _ (fun _ => none) _
    "t" 0 (.char 'Q') [["h"], ["x"], ["y"]] 0 rfl (by decide) rfl rfl rfl rfl
    (by decide) (by decide)).1

/-- C9: when the first drawn value and the redraws at counters 1..9 all fail
the pattern but the redraw on the 10th (final) retry satisfies it, the loop
still exits with `retries = 10` carrying that valid value, and the generator
raises `ValidationExhausted` anyway — the valid value found on the last
attempt is discarded without a recheck. -/
theorem c9_valid_on_tenth_retry_still_aborts
    (rand : Nat → Nat) (fs : String → Option (List (List String)))
    (fakerFn : String → Option (Nat → String)) (col : Column) (path : String)
    (idx : Nat) (p : Pattern) (content : List (List String)) (m : Nat)
    (v0 v10 : String)
    (hcsv : col.valid_values_csv = some path) (hpne : path ≠ "")
    (hidx : col.valid_values_csv_column_index = some idx)
    (hpat : col.validation_regex = some p)
    (hlink : col.same_valid_value_row_as_column = none)
    (hfs : fs path = some content) (htbl : content.drop 1 ≠ [])
    (hv0get : (pyChoice rand 0 (content.drop 1)).get? idx = some v0)
    (hv0bad : p.rmatch v0.toList = false)
    (hbadj : ∀ j, 1 ≤ j → j ≤ 9 →
      ∃ v, (pyChoice rand j (content.drop 1)).get? idx = some v ∧
        p.rmatch v.toList = false)
    (hv10get : (pyChoice rand 10 (content.drop 1)).get? idx = some v10)
    (hv10good : p.rmatch v10.toList = true) :
    generate_data rand fs fakerFn { file_size := some (m + 1), columns := [col] } =
      .error (.validationExhausted col.name) ∧
    (∃ r, refRetryLoop rand (content.drop 1) idx (some p) 10 v0
        (pyChoice rand 0 (content.drop 1)) 0 1 = .ok (v10, r, 10, 11) ∧
      validate_value v10 (some p) = true) := by
  have hdraws : ∀ j, j < 10 →
      ∃ v, (pyChoice rand (1 + j) (content.drop 1)).get? idx = some v ∧
        (j + 1 < 10 → validate_value v (some p) = false) := by
    intro j hj
    by_cases hj9 : j ≤ 8
    · obtain ⟨v, hv1, hv2⟩ := hbadj (1 + j) (by omega) (by omega)
      exact ⟨v, hv1, fun _ => by simpa [validate_value, String.toList] using hv2⟩
    · have hj10 : 1 + j = 10 := by omega
      rw [hj10]
      exact ⟨v10, hv10get, fun hlt => by omega⟩
  obtain ⟨v, r, hrun, hlast⟩ := refRetryLoop_exhaust rand (content.drop 1) idx
    (some p) 10 v0 (pyChoice rand 0 (content.drop 1)) 0 1
    (by simpa [validate_value, String.toList] using hv0bad) hdraws
  have hv_eq : v = v10 := by
    have h10 := hlast (by omega)
    rw [show 1 + 10 - 1 = 10 by omega] at h10
    rw [h10] at hv10get
    injection hv10get
  subst hv_eq
  have hrun2 : refRetryLoop rand (content.drop 1) idx (some p) 10 v0
      (pyChoice rand 0 (content.drop 1)) 0 1 = .ok (v, r, 10, 11) := by
    simpa using hrun
  have hcell : cellAt (pyChoice rand 0 (content.drop 1)) idx = .ok v0 := by
    unfold cellAt; rw [hv0get]
  constructor
  · unfold generate_data
    rw [generate_single_ref rand fs fakerFn col path idx content m hcsv hpne
      hidx hlink hfs htbl]
    rw [processColumns_ref_step rand fakerFn [(path, content.drop 1)] [] []
      (col_config_by_name [col]) col [] [] [] 0 path idx (content.drop 1) rfl
      hcsv hpne (by simp [cacheLookup, List.find?_cons]) hidx]
    rw [hpat]
    simp only [hcell, hrun2, ge_iff_le, le_refl, if_true, Except.map]
  · exact ⟨r, hrun2, by simpa [validate_value, String.toList] using hv10good⟩

/-- Witness for C9 at a concrete input: all draws hit the invalid cell `x`
except the 10th retry, which hits the valid cell `Q`; the run still aborts. -/
theorem c9_witness :
    generate_data (fun k => if k = 10 then 1 else 0)
      (fun q => if q = "t" then some [["h"], ["x"], ["Q"]] else none)
      (fun _ => none)
      { file_size := some 1,
        columns := [{ name := "a", position := 1, valid_values_csv := some "t",
                      valid_values_csv_column_index := some 0,
                      validation_regex := some (.char 'Q') }] } =
      .error (.validationExhausted "a") :=
  (c9_valid_on_tenth_retry_still_aborts (fun k => if k = 10 then 1 else 0)
    (fun q => if q = "t" then some [["h"], ["x"], ["Q"]] else none)
    (fun _ => none)
    { name := "a", position := 1, valid_values_csv := some "t",
      valid_values_csv_column_index := some 0,
      validation_regex := some (.char 'Q') }
    "t" 0 (.char 'Q') [["h"], ["x"], ["Q"]] 0 "x" "Q"
    rfl (by decide) rfl rfl rfl (by decide) (by decide) (by decide) (by decide)
    (by intro j h1 h9
        interval_cases j <;> exact ⟨"x", by decide, by decide⟩)
    (by decide) (by decide)).1

/-- The cell extraction can only fail with the generic runtime error. -/
lemma cellAt_error (row : List String) (i : Nat) (e : GenError)
    (h : cellAt row i = .error e) : e = .runtimeError := by
  unfold cellAt at h
  cases hg : row.get? i with
  | none => simp only [hg] at h; cases h; rfl
  | some v => simp only [hg] at h; cases h

/-- The retry loop can only fail with the generic runtime error (a
`ValidationExhausted` error is raised by its caller, never inside). -/
lemma refRetryLoop_error (rand : Nat → Nat) (tbl : List (List String))
    (idx : Nat) (pat : Option Pattern) :
    ∀ fuel value row retries k e,
      refRetryLoop rand tbl idx pat fuel value row retries k = .error e →
      e = .runtimeError := by
  intro fuel
  induction fuel with
  | zero =>
      intro value row retries k e h
      rw [refRetryLoop_zero] at h
      cases h
  | succ f ih =>
      intro value row retries k e h
      rw [refRetryLoop_succ] at h
      by_cases hv : validate_value value pat
      · rw [if_pos hv] at h; cases h
      · rw [if_neg hv] at h
        cases hcc : cellAt (pyChoice rand k tbl) idx with
        | error e2 =>
            simp only [hcc] at h
            cases h
            exact cellAt_error _ _ _ hcc
        | ok nv =>
            simp only [hcc] at h
            exact ih nv (pyChoice rand k tbl) (retries + 1) (k + 1) e h

/-- Unfolding of `processMembers` at a member whose configuration resolves. -/
lemma processMembers_cons (rand : Nat → Nat) (cfgByName : String → Option Column)
    (tbl : List (List String)) (name : String) (rest : List String) (row : Row)
    (chosenRow : List String) (k : Nat) (cfg : Column) (colIndex : Nat)
    (hc : cfgByName name = some cfg)
    (hi : cfg.valid_values_csv_column_index = some colIndex) :
    processMembers rand cfgByName tbl (name :: rest) row chosenRow k =
      match cellAt chosenRow colIndex with
      | .error e => .error e
      | .ok value =>
          match refRetryLoop rand tbl colIndex cfg.validation_regex 10 value
              chosenRow 0 k with
          | .error e => .error e
          | .ok (v, cr, retries, k2) =>
              if retries ≥ 10 then .error (.validationExhausted name)
              else
                processMembers rand cfgByName tbl rest
                  (rowInsert row name (some v)) cr k2 := by
  simp only [processMembers, hc, hi]

/-- C2 corrected: the 10-attempt budget is per member column, not shared
across the group-resolution step.  Each member's retry loop performs at most
10 redraws (each consuming one draw), so a whole group resolution consumes at
most `10 * m` redraws for `m` members before any failure; and the
`ValidationExhausted` error raised during group resolution names a member
column (the message carries the column name, not the source). -/
theorem c2_per_member_retry_budget :
    (∀ (rand : Nat → Nat) (tbl : List (List String)) (idx : Nat)
        (pat : Option Pattern) (value : String) (row : List String) (k : Nat)
        (v : String) (r : List String) (ret k2 : Nat),
        refRetryLoop rand tbl idx pat 10 value row 0 k = .ok (v, r, ret, k2) →
        ret ≤ 10 ∧ k2 = k + ret) ∧
    (∀ (rand : Nat → Nat) (cfgByName : String → Option Column)
        (tbl : List (List String)) (names : List String) (row : Row)
        (chosenRow : List String) (k : Nat) (row2 : Row) (cr : List String)
        (k2 : Nat),
        processMembers rand cfgByName tbl names row chosenRow k =
          .ok (row2, cr, k2) → k2 ≤ k + 10 * names.length) ∧
    (∀ (rand : Nat → Nat) (cfgByName : String → Option Column)
        (tbl : List (List String)) (names : List String) (row : Row)
        (chosenRow : List String) (k : Nat) (n : String),
        processMembers rand cfgByName tbl names row chosenRow k =
          .error (.validationExhausted n) → n ∈ names) := by
  refine ⟨?_, ?_, ?_⟩
  · intro rand tbl idx pat value row k v r ret k2 h
    have := refRetryLoop_counts rand tbl idx pat 10 value row 0 k v r ret k2 h
    omega
  · intro rand cfgByName tbl names
    induction names with
    | nil =>
        intro row chosenRow k row2 cr k2 h
        simp only [processMembers, Except.ok.injEq, Prod.mk.injEq] at h
        omega
    | cons name rest ih =>
        intro row chosenRow k row2 cr k2 h
        cases hc : cfgByName name with
        | none => simp only [processMembers, hc] at h; cases h
        | some cfg =>
            cases hi : cfg.valid_values_csv_column_index with
            | none => simp only [processMembers, hc, hi] at h; cases h
            | some colIndex =>
                rw [processMembers_cons rand cfgByName tbl name rest row
                  chosenRow k cfg colIndex hc hi] at h
                cases hcell : cellAt chosenRow colIndex with
                | error e => simp only [hcell] at h; cases h
                | ok value =>
                    simp only [hcell] at h
                    cases hloop : refRetryLoop rand tbl colIndex
                        cfg.validation_regex 10 value chosenRow 0 k with
                    | error e => simp only [hloop] at h; cases h
                    | ok q =>
                        obtain ⟨v, cr0, ret, k1⟩ := q
                        simp only [hloop] at h
                        have hcnt := refRetryLoop_counts rand tbl colIndex
                          cfg.validation_regex 10 value chosenRow 0 k v cr0 ret
                          k1 hloop
                        by_cases hret : ret ≥ 10
                        · rw [if_pos hret] at h; cases h
                        · rw [if_neg hret] at h
                          have := ih (rowInsert row name (some v)) cr0 k1 row2
                            cr k2 h
                          simp only [List.length_cons]
                          omega
  · intro rand cfgByName tbl names
    induction names with
    | nil =>
        intro row chosenRow k n h
        simp only [processMembers] at h
        cases h
    | cons name rest ih =>
        intro row chosenRow k n h
        cases hc : cfgByName name with
        | none => simp only [processMembers, hc] at h; cases h
        | some cfg =>
            cases hi : cfg.valid_values_csv_column_index with
            | none => simp only [processMembers, hc, hi] at h; cases h
            | some colIndex =>
                rw [processMembers_cons rand cfgByName tbl name rest row
                  chosenRow k cfg colIndex hc hi] at h
                cases hcell : cellAt chosenRow colIndex with
                | error e =>
                    simp only [hcell] at h
                    cases h
                    simpa using cellAt_error chosenRow colIndex _ hcell
                | ok value =>
                    simp only [hcell] at h
                    cases hloop : refRetryLoop rand tbl colIndex
                        cfg.validation_regex 10 value chosenRow 0 k with
                    | error e =>
                        simp only [hloop] at h
                        cases h
                        simpa using refRetryLoop_error rand tbl colIndex
                          cfg.validation_regex 10 value chosenRow 0 k _ hloop
                    | ok q =>
                        obtain ⟨v, cr0, ret, k1⟩ := q
                        simp only [hloop] at h
                        by_cases hret : ret ≥ 10
                        · rw [if_pos hret] at h
                          cases h
                          exact List.mem_cons_self _ _
                        · rw [if_neg hret] at h
                          exact List.mem_cons_of_mem _
                            (ih (rowInsert row name (some v)) cr0 k1 n h)

/-- Counterexample to C2 as stated: a single group-resolution step (one
dependency group with members `a` and `b`) performs 12 redraws in total —
member `a` redraws 6 times, then member `b` redraws 6 more — and the run
still succeeds, so the 10-attempt budget is not shared across the group.
The run consumes 13 draws: 1 shared-row draw plus 12 redraws, visible in the
final draw counter; `processMembers` is entered at counter 1 and returns at
counter 13 without raising. -/
theorem c2_counterexample :
    generate_data'
      (fun k => if k = 6 then 1 else if k = 12 then 2 else 0)
      (fun q => if q = "t" then
        some [["h", "h"], ["x", "x"], ["A", "x"], ["x", "B"]] else none)
      (fun _ => none)
      { file_size := some 1,
        columns :=
          [{ name := "a", position := 1, valid_values_csv := some "t",
             valid_values_csv_column_index := some 0,
             same_valid_value_row_as_column := some "b",
             validation_regex := some (.char 'A') },
           { name := "b", position := 2, valid_values_csv := some "t",
             valid_values_csv_column_index := some 1,
             validation_regex := some (.char 'B') }] } =
      .ok ([[("a", some "A"), ("b", some "B")]], 13) ∧
    processMembers
      (fun k => if k = 6 then 1 else if k = 12 then 2 else 0)
      (fun n => if n = "a" then
          some { name := "a", position := 1, valid_values_csv := some "t",
                 valid_values_csv_column_index := some 0,
                 same_valid_value_row_as_column := some "b",
                 validation_regex := some (.char 'A') }
        else if n = "b" then
          some { name := "b", position := 2, valid_values_csv := some "t",
                 valid_values_csv_column_index := some 1,
                 validation_regex := some (.char 'B') }
        else none)
      [["x", "x"], ["A", "x"], ["x", "B"]] ["a", "b"] [] ["x", "x"] 1 =
      .ok ([("a", some "A"), ("b", some "B")], ["x", "B"], 13) ∧
    1 + 10 < 13 := by
  refine ⟨?_, ?_, by norm_num⟩ <;> rfl

/-- Witness for the per-member budget theorem at a concrete input: the group
resolution of the counterexample run stays within `k + 10 * m` draws. -/
theorem c2_witness :
    (13 : Nat) ≤ 1 + 10 * (["a", "b"] : List String).length :=
  c2_per_member_retry_budget.2.1
    (fun k => if k = 6 then 1 else if k = 12 then 2 else 0)
    (fun n => if n = "a" then
        some { name := "a", position := 1, valid_values_csv := some "t",
               valid_values_csv_column_index := some 0,
               same_valid_value_row_as_column := some "b",
               validation_regex := some (.char 'A') }
      else if n = "b" then
        some { name := "b", position := 2, valid_values_csv := some "t",
               valid_values_csv_column_index := some 1,
               validation_regex := some (.char 'B') }
      else none)
    [["x", "x"], ["A", "x"], ["x", "B"]] ["a", "b"] [] ["x", "x"] 1
    [("a", some "A"), ("b", some "B")] ["x", "B"] 13 (by rfl)

/-- Counterexample to C5 as stated: with columns `a` (position 1, linked to
`b`), `c` (position 2, unconfigured) and `b` (position 3), the generated row
carries keys in order `[a, b, c]` — `b` is emitted together with its group
when `a` is reached — while the position-sorted column order is `[a, c, b]`.
The key set is right; the claimed position-derived key order is not. -/
theorem c5_counterexample :
    generate_data (fun _ => 0)
      (fun q => if q = "t" then some [["h", "h"], ["US", "NYC"]] else none)
      (fun _ => none)
      { file_size := some 1,
        columns :=
          [{ name := "a", position := 1, valid_values_csv := some "t",
             valid_values_csv_column_index := some 0,
             same_valid_value_row_as_column := some "b" },
           { name := "c", position := 2 },
           { name := "b", position := 3, valid_values_csv := some "t",
             valid_values_csv_column_index := some 1 }] } =
      .ok [[("a", some "US"), ("b", some "NYC"), ("c", none)]] ∧
    (sortCols
      [{ name := "a", position := 1, valid_values_csv := some "t",
         valid_values_csv_column_index := some 0,
         same_valid_value_row_as_column := some "b" },
       { name := "c", position := 2 },
       { name := "b", position := 3, valid_values_csv := some "t",
         valid_values_csv_column_index := some 1 }]).map Column.name =
      ["a", "c", "b"] ∧
    [("a", some "US"), ("b", some "NYC"), ("c", none)].map Prod.fst ≠
      ["a", "c", "b"] := by
  refine ⟨rfl, rfl, by decide⟩

/-! ### Row dictionary lemmas -/

lemma row_any_iff_mem (r : Row) (n : String) :
    r.any (fun p => decide (p.1 = n)) = true ↔ n ∈ r.map Prod.fst := by
  rw [List.any_eq_true]
  constructor
  · rintro ⟨p, hp, hpn⟩
    simp only [decide_eq_true_eq] at hpn
    exact List.mem_map.mpr ⟨p, hp, hpn⟩
  · intro h
    obtain ⟨p, hp, hpn⟩ := List.mem_map.mp h
    exact ⟨p, hp, by simp [hpn]⟩

lemma rowLookup_eq_none_iff (r : Row) (n : String) :
    rowLookup r n = none ↔ n ∉ r.map Prod.fst := by
  unfold rowLookup
  cases hf : r.find? (fun p => decide (p.1 = n)) with
  | some p =>
      simp only [reduceCtorEq, false_iff, not_not]
      have := List.find?_some hf
      simp only [decide_eq_true_eq] at this
      exact List.mem_map.mpr ⟨p, List.mem_of_find?_eq_some hf, this⟩
  | none =>
      simp only [true_iff]
      rw [List.find?_eq_none] at hf
      intro hmem
      obtain ⟨p, hp, hpn⟩ := List.mem_map.mp hmem
      exact absurd (by simp [hpn]) (hf p hp)

lemma rowInsert_keys (r : Row) (n : String) (v : Option String) :
    (rowInsert r n v).map Prod.fst =
      if n ∈ r.map Prod.fst then r.map Prod.fst
      else r.map Prod.fst ++ [n] := by
  unfold rowInsert
  by_cases h : r.any (fun p => decide (p.1 = n)) = true
  · rw [if_pos h, if_pos ((row_any_iff_mem r n).mp h), List.map_map]
    refine List.map_congr_left ?_
    intro p _
    by_cases hp : p.1 = n <;> simp [hp]
  · rw [if_neg h, if_neg (fun hm => h ((row_any_iff_mem r n).mpr hm))]
    simp

lemma mem_rowInsert_keys (r : Row) (n : String) (v : Option String)
    (n' : String) :
    n' ∈ (rowInsert r n v).map Prod.fst ↔ n' ∈ r.map Prod.fst ∨ n' = n := by
  rw [rowInsert_keys]
  by_cases h : n ∈ r.map Prod.fst
  · rw [if_pos h]
    constructor
    · exact Or.inl
    · rintro (h1 | rfl)
      · exact h1
      · exact h
  · rw [if_neg h]
    simp

lemma rowLookup_cons (p : String × Option String) (r : Row) (n' : String) :
    rowLookup (p :: r) n' = if p.1 = n' then some p.2 else rowLookup r n' := by
  unfold rowLookup
  by_cases h : p.1 = n'
  · rw [List.find?_cons_of_pos _ (by simp [h])]
    simp [h]
  · rw [List.find?_cons_of_neg _ (by simp [h])]
    simp [h]

lemma rowLookup_map_update (r : Row) (n : String) (v : Option String)
    (n' : String) :
    rowLookup (r.map (fun p => if p.1 = n then (p.1, v) else p)) n' =
      if n' = n then (rowLookup r n).map (fun _ => v) else rowLookup r n' := by
  induction r with
  | nil => by_cases h : n' = n <;> simp [rowLookup, h]
  | cons p r ih =>
      have hfst : (if p.1 = n then (p.1, v) else p).1 = p.1 := by
        by_cases hp : p.1 = n <;> simp [hp]
      rw [List.map_cons, rowLookup_cons, hfst]
      by_cases hn : n' = n
      · subst hn
        rw [if_pos rfl, rowLookup_cons]
        by_cases hp : p.1 = n'
        · simp [hp]
        · simp only [hp, Bool.false_eq_true, if_false]
          simpa [hp] using ih
      · rw [if_neg hn, rowLookup_cons]
        by_cases hp : p.1 = n'
        · have hpn : ¬ p.1 = n := fun hc => hn (hp.symm.trans hc)
          simp [hp, hpn, hn]
        · simp only [hp, if_false]
          simpa [hn] using ih

lemma rowLookup_append_single (r : Row) (n : String) (v : Option String)
    (n' : String) :
    rowLookup (r ++ [(n, v)]) n' =
      match rowLookup r n' with
      | some x => some x
      | none => if n' = n then some v else none := by
  induction r with
  | nil =>
      rw [List.nil_append, rowLookup_cons]
      by_cases h : n' = n
      · simp [rowLookup, h]
      · have h2 : ¬ (n, v).1 = n' := fun hc => h hc.symm
        rw [if_neg h2]
        simp [rowLookup, h]
  | cons p r ih =>
      rw [List.cons_append, rowLookup_cons, rowLookup_cons]
      by_cases hp : p.1 = n' <;> simp [hp, ih]

lemma rowLookup_rowInsert (r : Row) (n : String) (v : Option String)
    (n' : String) :
    rowLookup (rowInsert r n v) n' =
      if n' = n then some v else rowLookup r n' := by
  unfold rowInsert
  by_cases h : r.any (fun p => decide (p.1 = n)) = true
  · rw [if_pos h, rowLookup_map_update]
    by_cases hn : n' = n
    · subst hn
      rw [if_pos rfl, if_pos rfl]
      have hmem := (row_any_iff_mem r n').mp h
      cases hl : rowLookup r n' with
      | none => exact absurd ((rowLookup_eq_none_iff r n').mp hl) (by simp [hmem])
      | some x => simp [Option.map]
    · rw [if_neg hn, if_neg hn]
  · rw [if_neg h, rowLookup_append_single]
    by_cases hn : n' = n
    · subst hn
      have hnone : rowLookup r n' = none :=
        (rowLookup_eq_none_iff r n').mpr (fun hm => h ((row_any_iff_mem r n').mpr hm))
      rw [hnone]
    · cases hl : rowLookup r n' with
      | none => simp [hn]
      | some x => simp [hn]

/-! ### Elimination lemmas for the row-building loops -/

/-- Shape of a successful `processMembers` step. -/
lemma processMembers_cons_elim (rand : Nat → Nat)
    (cfgByName : String → Option Column) (tbl : List (List String))
    (name : String) (rest : List String) (row : Row) (cr : List String)
    (k : Nat) (out : Row) (cr2 : List String) (k2 : Nat)
    (h : processMembers rand cfgByName tbl (name :: rest) row cr k =
      .ok (out, cr2, k2)) :
    ∃ cfg colIndex value v crNew ret k3,
      cfgByName name = some cfg ∧
      cfg.valid_values_csv_column_index = some colIndex ∧
      cellAt cr colIndex = .ok value ∧
      refRetryLoop rand tbl colIndex cfg.validation_regex 10 value cr 0 k =
        .ok (v, crNew, ret, k3) ∧
      ret < 10 ∧
      processMembers rand cfgByName tbl rest (rowInsert row name (some v))
        crNew k3 = .ok (out, cr2, k2) := by
  cases hc : cfgByName name with
  | none => simp only [processMembers, hc] at h; cases h
  | some cfg =>
      cases hi : cfg.valid_values_csv_column_index with
      | none => simp only [processMembers, hc, hi] at h; cases h
      | some colIndex =>
          rw [processMembers_cons rand cfgByName tbl name rest row cr k cfg
            colIndex hc hi] at h
          cases hcell : cellAt cr colIndex with
          | error e => simp only [hcell] at h; cases h
          | ok value =>
              simp only [hcell] at h
              cases hloop : refRetryLoop rand tbl colIndex
                  cfg.validation_regex 10 value cr 0 k with
              | error e => simp only [hloop] at h; cases h
              | ok q =>
                  obtain ⟨v, crNew, ret, k3⟩ := q
                  simp only [hloop] at h
                  by_cases hret : ret ≥ 10
                  · rw [if_pos hret] at h; cases h
                  · rw [if_neg hret] at h
                    exact ⟨cfg, colIndex, value, v, crNew, ret, k3, rfl, hi,
                      hcell, hloop, by omega, h⟩

/-- Unfolding of `processColumns` at a grouped column whose group is already
resolved. -/
lemma processColumns_skip (rand : Nat → Nat)
    (fakerFn : String → Option (Nat → String)) (cache : Cache)
    (ctg : List (String × Nat)) (groups : List (Nat × List String))
    (cfgByName : String → Option Column) (col : Column) (rest : List Column)
    (row : Row) (pg : List Nat) (k : Nat) (grp : Nat)
    (hg : List.lookup col.name ctg = some grp) (hin : grp ∈ pg) :
    processColumns rand fakerFn cache ctg groups cfgByName (col :: rest) row
      pg k = processColumns rand fakerFn cache ctg groups cfgByName rest row
      pg k := by
  simp only [processColumns, hg, hin, if_true]

/-- Shape of a successful `processColumns` step. -/
lemma processColumns_cons_elim (rand : Nat → Nat)
    (fakerFn : String → Option (Nat → String)) (cache : Cache)
    (ctg : List (String × Nat)) (groups : List (Nat × List String))
    (cfgByName : String → Option Column) (col : Column) (rest : List Column)
    (row : Row) (pg : List Nat) (k : Nat) (out : Row) (pg2 : List Nat)
    (k2 : Nat)
    (h : processColumns rand fakerFn cache ctg groups cfgByName (col :: rest)
      row pg k = .ok (out, pg2, k2)) :
    (∃ grp, List.lookup col.name ctg = some grp ∧ grp ∈ pg ∧
      processColumns rand fakerFn cache ctg groups cfgByName rest row pg k =
        .ok (out, pg2, k2)) ∨
    (∃ grp groupCols files path tbl row2 cr2 k3,
      List.lookup col.name ctg = some grp ∧ grp ∉ pg ∧
      List.lookup grp groups = some groupCols ∧
      groupCsvFiles cfgByName groupCols = .ok files ∧
      files.dedup = [some path] ∧
      cacheLookup cache path = some tbl ∧
      processMembers rand cfgByName tbl groupCols row (pyChoice rand k tbl)
        (k + 1) = .ok (row2, cr2, k3) ∧
      processColumns rand fakerFn cache ctg groups cfgByName rest row2
        (pg ++ [grp]) k3 = .ok (out, pg2, k2)) ∨
    (∃ path tbl colIndex value v cr ret k3,
      List.lookup col.name ctg = none ∧
      col.valid_values_csv = some path ∧ path ≠ "" ∧
      cacheLookup cache path = some tbl ∧
      col.valid_values_csv_column_index = some colIndex ∧
      cellAt (pyChoice rand k tbl) colIndex = .ok value ∧
      refRetryLoop rand tbl colIndex col.validation_regex 10 value
        (pyChoice rand k tbl) 0 (k + 1) = .ok (v, cr, ret, k3) ∧
      ret < 10 ∧
      processColumns rand fakerFn cache ctg groups cfgByName rest
        (rowInsert row col.name (some v)) pg k3 = .ok (out, pg2, k2)) ∨
    (∃ tag gen v ret k3,
      List.lookup col.name ctg = none ∧
      truthy col.valid_values_csv = false ∧
      col.data_type = some tag ∧ fakerFn tag = some gen ∧
      fakerRetryLoop gen col.validation_regex 10 (gen k) 0 (k + 1) =
        (v, ret, k3) ∧
      ret < 10 ∧
      processColumns rand fakerFn cache ctg groups cfgByName rest
        (rowInsert row col.name (some v)) pg k3 = .ok (out, pg2, k2)) ∨
    (List.lookup col.name ctg = none ∧
      truthy col.valid_values_csv = false ∧ truthy col.data_type = false ∧
      processColumns rand fakerFn cache ctg groups cfgByName rest
        (rowInsert row col.name none) pg k = .ok (out, pg2, k2)) := by
  cases hg : List.lookup col.name ctg with
  | some grp =>
      by_cases hin : grp ∈ pg
      · rw [processColumns_skip rand fakerFn cache ctg groups cfgByName col
          rest row pg k grp hg hin] at h
        exact Or.inl ⟨grp, rfl, hin, h⟩
      · simp only [processColumns, hg, hin, if_false] at h
        cases hgl : List.lookup grp groups with
        | none => simp only [hgl] at h; cases h
        | some groupCols =>
            simp only [hgl] at h
            cases hfl : groupCsvFiles cfgByName groupCols with
            | error e => simp only [hfl] at h; cases h
            | ok files =>
                simp only [hfl] at h
                cases hded : files.dedup with
                | nil => simp only [hded] at h; cases h
                | cons ocsv restd =>
                    cases restd with
                    | cons o2 r2 => simp only [hded] at h; cases h
                    | nil =>
                        simp only [hded] at h
                        cases ocsv with
                        | none => cases h
                        | some path =>
                            cases hca : cacheLookup cache path with
                            | none => simp only [hca] at h; cases h
                            | some tbl =>
                                simp only [hca] at h
                                cases hpm : processMembers rand cfgByName tbl
                                    groupCols row (pyChoice rand k tbl)
                                    (k + 1) with
                                | error e => simp only [hpm] at h; cases h
                                | ok q =>
                                    obtain ⟨row2, cr2, k3⟩ := q
                                    simp only [hpm] at h
                                    exact Or.inr (Or.inl ⟨grp, groupCols,
                                      files, path, tbl, row2, cr2, k3, rfl,
                                      hin, hgl, hfl, hded, hca, hpm, h⟩)
  | none =>
      by_cases ht : truthy col.valid_values_csv = true
      · obtain ⟨path, hcsv, hpne⟩ : ∃ path, col.valid_values_csv = some path ∧
            path ≠ "" := by
          cases hc : col.valid_values_csv with
          | none => rw [hc] at ht; simp [truthy] at ht
          | some q =>
              rw [hc] at ht
              simp only [truthy, decide_eq_true_eq] at ht
              exact ⟨q, rfl, ht⟩
        have ht2 : truthy (some path) = true := by simp [truthy, hpne]
        simp only [processColumns, hg, hcsv, ht2, if_true] at h
        cases hca : cacheLookup cache path with
        | none => simp only [hca] at h; cases h
        | some tbl =>
            simp only [hca] at h
            cases hi : col.valid_values_csv_column_index with
            | none => simp only [hi] at h; cases h
            | some colIndex =>
                simp only [hi] at h
                cases hcell : cellAt (pyChoice rand k tbl) colIndex with
                | error e => simp only [hcell] at h; cases h
                | ok value =>
                    simp only [hcell] at h
                    cases hloop : refRetryLoop rand tbl colIndex
                        col.validation_regex 10 value (pyChoice rand k tbl) 0
                        (k + 1) with
                    | error e => simp only [hloop] at h; cases h
                    | ok q =>
                        obtain ⟨v, cr, ret, k3⟩ := q
                        simp only [hloop] at h
                        by_cases hret : ret ≥ 10
                        · rw [if_pos hret] at h; cases h
                        · rw [if_neg hret] at h
                          exact Or.inr (Or.inr (Or.inl ⟨path, tbl, colIndex,
                            value, v, cr, ret, k3, rfl, hcsv, hpne, hca, rfl,
                            hcell, hloop, by omega, h⟩))
      · have htf : truthy col.valid_values_csv = false := by
          cases hx : truthy col.valid_values_csv
          · rfl
          · exact absurd hx ht
        by_cases htd : truthy col.data_type = true
        · obtain ⟨tag, hdt⟩ : ∃ tag, col.data_type = some tag := by
            cases hc : col.data_type with
            | none => rw [hc] at htd; simp [truthy] at htd
            | some q => exact ⟨q, rfl⟩
          have htd2 : truthy (some tag) = true := hdt ▸ htd
          simp only [processColumns, hg, htf, Bool.false_eq_true, if_false,
            hdt, htd2, if_true] at h
          cases hfk : fakerFn tag with
          | none => simp only [hfk] at h; cases h
          | some gen =>
              simp only [hfk] at h
              rcases hfl : fakerRetryLoop gen col.validation_regex 10 (gen k)
                  0 (k + 1) with ⟨v, ret, k3⟩
              simp only [hfl] at h
              by_cases hret : ret ≥ 10
              · rw [if_pos hret] at h; cases h
              · rw [if_neg hret] at h
                exact Or.inr (Or.inr (Or.inr (Or.inl ⟨tag, gen, v, ret, k3,
                  rfl, htf, hdt, hfk, hfl, by omega, h⟩)))
        · have htf2 : truthy col.data_type = false := by
            cases hx : truthy col.data_type
            · rfl
            · exact absurd hx htd
          simp only [processColumns, hg, htf, htf2, Bool.false_eq_true,
            if_false] at h
          exact Or.inr (Or.inr (Or.inr (Or.inr ⟨rfl, htf, htf2, h⟩)))

/-! ### Key-shape determinism of the row loop -/

lemma rowInsert_keys_insertKey (r : Row) (n : String) (v : Option String) :
    (rowInsert r n v).map Prod.fst = insertKey (r.map Prod.fst) n := by
  rw [rowInsert_keys]; rfl

lemma processMembers_keys (rand : Nat → Nat)
    (cfgByName : String → Option Column) (tbl : List (List String)) :
    ∀ (names : List String) (row : Row) (cr : List String) (k : Nat)
      (out : Row) (cr2 : List String) (k2 : Nat),
      processMembers rand cfgByName tbl names row cr k = .ok (out, cr2, k2) →
      out.map Prod.fst = keySeqMembers (row.map Prod.fst) names := by
  intro names
  induction names with
  | nil =>
      intro row cr k out cr2 k2 h
      simp only [processMembers, Except.ok.injEq, Prod.mk.injEq] at h
      rw [← h.1]
      rfl
  | cons name rest ih =>
      intro row cr k out cr2 k2 h
      obtain ⟨cfg, colIndex, value, v, crNew, ret, k3, hc, hi, hcell, hloop,
        hret, hrec⟩ := processMembers_cons_elim rand cfgByName tbl name rest
          row cr k out cr2 k2 h
      rw [ih _ _ _ _ _ _ hrec, rowInsert_keys_insertKey]
      rfl

lemma processColumns_keys (rand : Nat → Nat)
    (fakerFn : String → Option (Nat → String)) (cache : Cache)
    (ctg : List (String × Nat)) (groups : List (Nat × List String))
    (cfgByName : String → Option Column) :
    ∀ (cols : List Column) (row : Row) (pg : List Nat) (k : Nat) (out : Row)
      (pg2 : List Nat) (k2 : Nat),
      processColumns rand fakerFn cache ctg groups cfgByName cols row pg k =
        .ok (out, pg2, k2) →
      (out.map Prod.fst, pg2) =
        keySeqCols ctg groups cols (row.map Prod.fst) pg := by
  intro cols
  induction cols with
  | nil =>
      intro row pg k out pg2 k2 h
      simp only [processColumns, Except.ok.injEq, Prod.mk.injEq] at h
      rw [← h.1, ← h.2.1]
      rfl
  | cons col rest ih =>
      intro row pg k out pg2 k2 h
      rcases processColumns_cons_elim rand fakerFn cache ctg groups cfgByName
        col rest row pg k out pg2 k2 h with
        ⟨grp, hg, hin, hrec⟩ |
        ⟨grp, groupCols, files, path, tbl, row2, cr2, k3, hg, hnin, hgl, hfl,
          hded, hca, hpm, hrec⟩ |
        ⟨path, tbl, colIndex, value, v, cr, ret, k3, hg, hcsv, hpne, hca, hi,
          hcell, hloop, hret, hrec⟩ |
        ⟨tag, gen, v, ret, k3, hg, htf, hdt, hfk, hfl, hret, hrec⟩ |
        ⟨hg, htf, htf2, hrec⟩
      · rw [ih _ _ _ _ _ _ hrec]
        simp [keySeqCols, hg, hin]
      · rw [ih _ _ _ _ _ _ hrec]
        simp only [keySeqCols, hg, hnin, if_false, hgl]
        rw [processMembers_keys rand cfgByName tbl groupCols row _ _ _ _ _ hpm]
      · rw [ih _ _ _ _ _ _ hrec, rowInsert_keys_insertKey]
        simp [keySeqCols, hg]
      · rw [ih _ _ _ _ _ _ hrec, rowInsert_keys_insertKey]
        simp [keySeqCols, hg]
      · rw [ih _ _ _ _ _ _ hrec, rowInsert_keys_insertKey]
        simp [keySeqCols, hg]

/-! ### Run-level elimination and row provenance -/

lemma generate_data_ok_elim (rand : Nat → Nat)
    (fs : String → Option (List (List String)))
    (fakerFn : String → Option (Nat → String)) (cfg : Config)
    (rows : List Row) (h : generate_data rand fs fakerFn cfg = .ok rows) :
    ∃ cache k,
      preload fs (sortCols cfg.columns) [] = .ok cache ∧
      genRows rand fakerFn cache
        (build_dependency_groups (sortCols cfg.columns)).1
        (build_dependency_groups (sortCols cfg.columns)).2
        (col_config_by_name (sortCols cfg.columns)) (sortCols cfg.columns)
        (cfg.file_size.getD 1000) [] 0 = .ok (rows, k) := by
  simp only [generate_data, generate_data'] at h
  cases hp : preload fs (sortCols cfg.columns) [] with
  | error e => simp only [hp, Except.map] at h; cases h
  | ok cache =>
      simp only [hp] at h
      cases hgr : genRows rand fakerFn cache
          (build_dependency_groups (sortCols cfg.columns)).1
          (build_dependency_groups (sortCols cfg.columns)).2
          (col_config_by_name (sortCols cfg.columns)) (sortCols cfg.columns)
          (cfg.file_size.getD 1000) [] 0 with
      | error e =>
          rw [hgr] at h
          simp [Except.map] at h
      | ok q =>
          obtain ⟨rows2, k⟩ := q
          rw [hgr] at h
          simp only [Except.map, Except.ok.injEq] at h
          exact ⟨cache, k, rfl, by rw [hgr, h]⟩

lemma genRows_length (rand : Nat → Nat)
    (fakerFn : String → Option (Nat → String)) (cache : Cache)
    (ctg : List (String × Nat)) (groups : List (Nat × List String))
    (cfgByName : String → Option Column) (cols : List Column) :
    ∀ (n : Nat) (acc : List Row) (k : Nat) (out : List Row) (k2 : Nat),
      genRows rand fakerFn cache ctg groups cfgByName cols n acc k =
        .ok (out, k2) →
      out.length = acc.length + n := by
  intro n
  induction n with
  | zero =>
      intro acc k out k2 h
      simp only [genRows, Except.ok.injEq, Prod.mk.injEq] at h
      rw [← h.1]
      omega
  | succ n ih =>
      intro acc k out k2 h
      simp only [genRows] at h
      cases hpc : processColumns rand fakerFn cache ctg groups cfgByName cols
          [] [] k with
      | error e => rw [hpc] at h; cases h
      | ok q =>
          obtain ⟨row, pg, k3⟩ := q
          simp only [hpc] at h
          have := ih (acc ++ [row]) k3 out k2 h
          simp only [List.length_append, List.length_singleton] at this
          omega

lemma genRows_provenance (rand : Nat → Nat)
    (fakerFn : String → Option (Nat → String)) (cache : Cache)
    (ctg : List (String × Nat)) (groups : List (Nat × List String))
    (cfgByName : String → Option Column) (cols : List Column) :
    ∀ (n : Nat) (acc : List Row) (k : Nat) (out : List Row) (k2 : Nat),
      genRows rand fakerFn cache ctg groups cfgByName cols n acc k =
        .ok (out, k2) →
      ∀ r ∈ out, r ∈ acc ∨ ∃ k3 pg3 k4,
        processColumns rand fakerFn cache ctg groups cfgByName cols [] [] k3 =
          .ok (r, pg3, k4) := by
  intro n
  induction n with
  | zero =>
      intro acc k out k2 h r hr
      simp only [genRows, Except.ok.injEq, Prod.mk.injEq] at h
      rw [← h.1] at hr
      exact Or.inl hr
  | succ n ih =>
      intro acc k out k2 h r hr
      simp only [genRows] at h
      cases hpc : processColumns rand fakerFn cache ctg groups cfgByName cols
          [] [] k with
      | error e => rw [hpc] at h; cases h
      | ok q =>
          obtain ⟨row, pg, k3⟩ := q
          simp only [hpc] at h
          rcases ih (acc ++ [row]) k3 out k2 h r hr with hmem | hpc2
          · rcases List.mem_append.mp hmem with hmem2 | hmem2
            · exact Or.inl hmem2
            · right
              refine ⟨k, pg, k3, ?_⟩
              rw [List.mem_singleton.mp hmem2]
              exact hpc
          · exact Or.inr hpc2

/-! ### Association-list lookup helpers -/

lemma lookup_append_some {α β : Type} [BEq α] (l1 l2 : List (α × β)) (a : α)
    (v : β) (h : List.lookup a l1 = some v) :
    List.lookup a (l1 ++ l2) = some v := by
  induction l1 with
  | nil => simp [List.lookup] at h
  | cons p l1 ih =>
      obtain ⟨x, y⟩ := p
      simp only [List.cons_append, List.lookup] at h ⊢
      cases hb : (a == x) with
      | true => simp only [hb] at h ⊢; exact h
      | false => simp only [hb] at h ⊢; exact ih h

lemma lookup_append_none {α β : Type} [BEq α] (l1 l2 : List (α × β)) (a : α)
    (h : List.lookup a l1 = none) :
    List.lookup a (l1 ++ l2) = List.lookup a l2 := by
  induction l1 with
  | nil => simp
  | cons p l1 ih =>
      obtain ⟨x, y⟩ := p
      simp only [List.cons_append, List.lookup] at h ⊢
      cases hb : (a == x) with
      | true => simp only [hb] at h; cases h
      | false => simp only [hb] at h ⊢; exact ih h

lemma lookup_map_const_pair (comp : List String) (gid : Nat) (n : String)
    (g : Nat) (h : List.lookup n (comp.map (fun m => (m, gid))) = some g) :
    g = gid ∧ n ∈ comp := by
  induction comp with
  | nil => simp [List.lookup] at h
  | cons m comp ih =>
      rw [List.map_cons, List.lookup_cons] at h
      cases hb : (n == m) with
      | true =>
          rw [hb] at h
          injection h with h2
          exact ⟨h2.symm, List.mem_cons.mpr (Or.inl (by
            have := eq_of_beq hb
            exact this))⟩
      | false =>
          rw [hb] at h
          obtain ⟨h1, h2⟩ := ih h
          exact ⟨h1, List.mem_cons_of_mem m h2⟩

/-! ### Coherence of the grouping output -/

lemma lookup_some_mem {α β : Type} [BEq α] [LawfulBEq α]
    (l : List (α × β)) (a : α) (v : β) (h : List.lookup a l = some v) :
    (a, v) ∈ l := by
  induction l with
  | nil => simp [List.lookup] at h
  | cons p l ih =>
      obtain ⟨x, y⟩ := p
      simp only [List.lookup] at h
      cases hb : (a == x) with
      | true =>
          simp only [hb] at h
          injection h with h2
          rw [eq_of_beq hb, h2]
          exact List.mem_cons_self _ _
      | false =>
          simp only [hb] at h
          exact List.mem_cons_of_mem _ (ih h)

lemma bdg_fold_inv (g : Graph) (flen : Nat) :
    ∀ (ks : List String) (st : GroupState),
      (∀ n gid, List.lookup n st.col_to_group = some gid →
        ∃ comp, List.lookup gid st.groups = some comp ∧ n ∈ comp) →
      (∀ p ∈ st.groups, p.1 < st.group_id) →
      (∀ n gid,
        List.lookup n (List.foldl (bdgStep g flen) st ks).col_to_group =
          some gid →
        ∃ comp,
          List.lookup gid (List.foldl (bdgStep g flen) st ks).groups =
            some comp ∧ n ∈ comp) ∧
      (∀ p ∈ (List.foldl (bdgStep g flen) st ks).groups,
        p.1 < (List.foldl (bdgStep g flen) st ks).group_id) := by
  intro ks
  induction ks with
  | nil => intro st h1 h2; exact ⟨h1, h2⟩
  | cons node ks ih =>
      intro st h1 h2
      rw [List.foldl_cons]
      by_cases hv : node ∈ st.visited
      · have hst : bdgStep g flen st node = st := by
          unfold bdgStep; rw [if_pos hv]
        rw [hst]
        exact ih st h1 h2
      · have hst : bdgStep g flen st node =
            { visited := (dfsAux g flen node (st.visited, [])).1
              col_to_group := st.col_to_group ++
                (dfsAux g flen node (st.visited, [])).2.map
                  (fun n => (n, st.group_id))
              group_id := st.group_id + 1
              groups := st.groups ++
                [(st.group_id, (dfsAux g flen node (st.visited, [])).2)] } := by
          unfold bdgStep; rw [if_neg hv]
        rw [hst]
        refine ih _ ?_ ?_
        · intro n gid hl
          dsimp only at hl ⊢
          cases hold : List.lookup n st.col_to_group with
          | some gid0 =>
              rw [lookup_append_some _ _ _ _ hold] at hl
              injection hl with hl2
              subst hl2
              obtain ⟨comp, hcomp, hmem⟩ := h1 n gid0 hold
              exact ⟨comp, lookup_append_some _ _ _ _ hcomp, hmem⟩
          | none =>
              rw [lookup_append_none _ _ _ hold] at hl
              obtain ⟨hgid, hmem⟩ := lookup_map_const_pair _ _ _ _ hl
              subst hgid
              refine ⟨(dfsAux g flen node (st.visited, [])).2, ?_, hmem⟩
              have hnone : List.lookup st.group_id st.groups = none := by
                cases hx : List.lookup st.group_id st.groups with
                | none => rfl
                | some c =>
                    have := h2 _ (lookup_some_mem _ _ _ hx)
                    omega
              rw [lookup_append_none _ _ _ hnone]
              simp [List.lookup]
        · intro p hp
          dsimp only at hp ⊢
          rcases List.mem_append.mp hp with hp2 | hp2
          · have := h2 p hp2; omega
          · rw [List.mem_singleton.mp hp2]; omega

lemma bdg_coherent (cols : List Column) (n : String) (gid : Nat)
    (h : List.lookup n (build_dependency_groups cols).1 = some gid) :
    ∃ comp, List.lookup gid (build_dependency_groups cols).2 = some comp ∧
      n ∈ comp := by
  have hinv := bdg_fold_inv (buildGraph cols)
    ((buildGraph cols).map (fun p => p.1)).length
    ((buildGraph cols).map (fun p => p.1)) ⟨[], [], 0, []⟩
    (by intro n2 gid2 hl; simp [List.lookup] at hl)
    (by intro p hp; simp at hp)
  exact hinv.1 n gid h

/-! ### Key membership of generated rows -/

lemma col_config_by_name_aux (n : String) :
    ∀ (cols : List Column) (acc : Option Column) (c : Column),
      List.foldl (fun acc c => if c.name = n then some c else acc) acc cols =
        some c →
      acc = some c ∨ (c ∈ cols ∧ c.name = n) := by
  intro cols
  induction cols with
  | nil => intro acc c h; exact Or.inl h
  | cons col rest ih =>
      intro acc c h
      rw [List.foldl_cons] at h
      rcases ih _ c h with hacc | hrest
      · by_cases hn : col.name = n
        · rw [if_pos hn] at hacc
          injection hacc with h2
          exact Or.inr ⟨by rw [← h2]; exact List.mem_cons_self _ _,
            by rw [← h2]; exact hn⟩
        · rw [if_neg hn] at hacc
          exact Or.inl hacc
      · exact Or.inr ⟨List.mem_cons_of_mem _ hrest.1, hrest.2⟩

lemma col_config_by_name_some (cols : List Column) (n : String) (c : Column)
    (h : col_config_by_name cols n = some c) : c ∈ cols ∧ c.name = n := by
  rcases col_config_by_name_aux n cols none c h with h2 | h2
  · cases h2
  · exact h2

lemma processMembers_names_sub (rand : Nat → Nat)
    (cfgByName : String → Option Column) (tbl : List (List String)) :
    ∀ (names : List String) (row : Row) (cr : List String) (k : Nat)
      (out : Row) (cr2 : List String) (k2 : Nat),
      processMembers rand cfgByName tbl names row cr k = .ok (out, cr2, k2) →
      ∀ n, n ∈ out.map Prod.fst →
        n ∈ row.map Prod.fst ∨ ∃ c, cfgByName n = some c := by
  intro names
  induction names with
  | nil =>
      intro row cr k out cr2 k2 h n hn
      simp only [processMembers, Except.ok.injEq, Prod.mk.injEq] at h
      rw [← h.1] at hn
      exact Or.inl hn
  | cons name rest ih =>
      intro row cr k out cr2 k2 h n hn
      obtain ⟨cfg, colIndex, value, v, crNew, ret, k3, hc, hi, hcell, hloop,
        hret, hrec⟩ := processMembers_cons_elim rand cfgByName tbl name rest
          row cr k out cr2 k2 h
      rcases ih _ _ _ _ _ _ hrec n hn with hmem | hcfg
      · rcases (mem_rowInsert_keys row name (some v) n).mp hmem with h2 | h2
        · exact Or.inl h2
        · exact Or.inr ⟨cfg, h2 ▸ hc⟩
      · exact Or.inr hcfg

lemma processMembers_names_sup (rand : Nat → Nat)
    (cfgByName : String → Option Column) (tbl : List (List String)) :
    ∀ (names : List String) (row : Row) (cr : List String) (k : Nat)
      (out : Row) (cr2 : List String) (k2 : Nat),
      processMembers rand cfgByName tbl names row cr k = .ok (out, cr2, k2) →
      (∀ nm ∈ names, nm ∈ out.map Prod.fst) ∧
      (∀ n ∈ row.map Prod.fst, n ∈ out.map Prod.fst) := by
  intro names
  induction names with
  | nil =>
      intro row cr k out cr2 k2 h
      simp only [processMembers, Except.ok.injEq, Prod.mk.injEq] at h
      rw [← h.1]
      exact ⟨by simp, fun n hn => hn⟩
  | cons name rest ih =>
      intro row cr k out cr2 k2 h
      obtain ⟨cfg, colIndex, value, v, crNew, ret, k3, hc, hi, hcell, hloop,
        hret, hrec⟩ := processMembers_cons_elim rand cfgByName tbl name rest
          row cr k out cr2 k2 h
      obtain ⟨hsup, hmono⟩ := ih _ _ _ _ _ _ hrec
      constructor
      · intro nm hnm
        rcases List.mem_cons.mp hnm with rfl | h2
        · exact hmono _ ((mem_rowInsert_keys row nm (some v) nm).mpr
            (Or.inr rfl))
        · exact hsup nm h2
      · intro n hn
        exact hmono _ ((mem_rowInsert_keys row name (some v) n).mpr
          (Or.inl hn))

lemma processColumns_names_sub (rand : Nat → Nat)
    (fakerFn : String → Option (Nat → String)) (cache : Cache)
    (ctg : List (String × Nat)) (groups : List (Nat × List String))
    (cfgByName : String → Option Column) :
    ∀ (cols : List Column) (row : Row) (pg : List Nat) (k : Nat) (out : Row)
      (pg2 : List Nat) (k2 : Nat),
      processColumns rand fakerFn cache ctg groups cfgByName cols row pg k =
        .ok (out, pg2, k2) →
      ∀ n, n ∈ out.map Prod.fst →
        n ∈ row.map Prod.fst ∨ (∃ c, cfgByName n = some c) ∨
          (∃ col ∈ cols, col.name = n) := by
  intro cols
  induction cols with
  | nil =>
      intro row pg k out pg2 k2 h n hn
      simp only [processColumns, Except.ok.injEq, Prod.mk.injEq] at h
      rw [← h.1] at hn
      exact Or.inl hn
  | cons col rest ih =>
      intro row pg k out pg2 k2 h n hn
      have step : ∀ (row2 : Row) (pg3 : List Nat) (k3 : Nat),
          processColumns rand fakerFn cache ctg groups cfgByName rest row2 pg3
            k3 = .ok (out, pg2, k2) →
          (∀ m, m ∈ row2.map Prod.fst →
            m ∈ row.map Prod.fst ∨ (∃ c, cfgByName m = some c) ∨
              (∃ c2 ∈ col :: rest, c2.name = m)) →
          n ∈ row.map Prod.fst ∨ (∃ c, cfgByName n = some c) ∨
            (∃ c2 ∈ col :: rest, c2.name = n) := by
        intro row2 pg3 k3 hrec hstep
        rcases ih _ _ _ _ _ _ hrec n hn with h2 | h2 | h2
        · exact hstep n h2
        · exact Or.inr (Or.inl h2)
        · exact Or.inr (Or.inr ⟨h2.choose, List.mem_cons_of_mem _
            h2.choose_spec.1, h2.choose_spec.2⟩)
      rcases processColumns_cons_elim rand fakerFn cache ctg groups cfgByName
        col rest row pg k out pg2 k2 h with
        ⟨grp, hg, hin, hrec⟩ |
        ⟨grp, groupCols, files, path, tbl, row2, cr2, k3, hg, hnin, hgl, hfl,
          hded, hca, hpm, hrec⟩ |
        ⟨path, tbl, colIndex, value, v, cr, ret, k3, hg, hcsv, hpne, hca, hi,
          hcell, hloop, hret, hrec⟩ |
        ⟨tag, gen, v, ret, k3, hg, htf, hdt, hfk, hfl, hret, hrec⟩ |
        ⟨hg, htf, htf2, hrec⟩
      · exact step _ _ _ hrec (fun m hm => Or.inl hm)
      · refine step _ _ _ hrec (fun m hm => ?_)
        rcases processMembers_names_sub rand cfgByName tbl groupCols row _ _ _
          _ _ hpm m hm with h2 | h2
        · exact Or.inl h2
        · exact Or.inr (Or.inl h2)
      · refine step _ _ _ hrec (fun m hm => ?_)
        rcases (mem_rowInsert_keys row col.name (some v) m).mp hm with h2 | h2
        · exact Or.inl h2
        · exact Or.inr (Or.inr ⟨col, List.mem_cons_self _ _, h2.symm⟩)
      · refine step _ _ _ hrec (fun m hm => ?_)
        rcases (mem_rowInsert_keys row col.name (some v) m).mp hm with h2 | h2
        · exact Or.inl h2
        · exact Or.inr (Or.inr ⟨col, List.mem_cons_self _ _, h2.symm⟩)
      · refine step _ _ _ hrec (fun m hm => ?_)
        rcases (mem_rowInsert_keys row col.name none m).mp hm with h2 | h2
        · exact Or.inl h2
        · exact Or.inr (Or.inr ⟨col, List.mem_cons_self _ _, h2.symm⟩)

lemma processColumns_names_sup (rand : Nat → Nat)
    (fakerFn : String → Option (Nat → String)) (cache : Cache)
    (ctg : List (String × Nat)) (groups : List (Nat × List String))
    (cfgByName : String → Option Column)
    (hco : ∀ nm grp, List.lookup nm ctg = some grp →
      ∃ comp, List.lookup grp groups = some comp ∧ nm ∈ comp) :
    ∀ (cols : List Column) (row : Row) (pg : List Nat) (k : Nat) (out : Row)
      (pg2 : List Nat) (k2 : Nat),
      processColumns rand fakerFn cache ctg groups cfgByName cols row pg k =
        .ok (out, pg2, k2) →
      (∀ g ∈ pg, ∀ comp, List.lookup g groups = some comp →
        ∀ nm ∈ comp, nm ∈ row.map Prod.fst) →
      (∀ col ∈ cols, col.name ∈ out.map Prod.fst) ∧
      (∀ n ∈ row.map Prod.fst, n ∈ out.map Prod.fst) ∧
      (∀ g ∈ pg2, ∀ comp, List.lookup g groups = some comp →
        ∀ nm ∈ comp, nm ∈ out.map Prod.fst) := by
  intro cols
  induction cols with
  | nil =>
      intro row pg k out pg2 k2 h hpg
      simp only [processColumns, Except.ok.injEq, Prod.mk.injEq] at h
      obtain ⟨h1, h2, _⟩ := h
      subst h1; subst h2
      exact ⟨by simp, fun n hn => hn, hpg⟩
  | cons col rest ih =>
      intro row pg k out pg2 k2 h hpg
      rcases processColumns_cons_elim rand fakerFn cache ctg groups cfgByName
        col rest row pg k out pg2 k2 h with
        ⟨grp, hg, hin, hrec⟩ |
        ⟨grp, groupCols, files, path, tbl, row2, cr2, k3, hg, hnin, hgl, hfl,
          hded, hca, hpm, hrec⟩ |
        ⟨path, tbl, colIndex, value, v, cr, ret, k3, hg, hcsv, hpne, hca, hi,
          hcell, hloop, hret, hrec⟩ |
        ⟨tag, gen, v, ret, k3, hg, htf, hdt, hfk, hfl, hret, hrec⟩ |
        ⟨hg, htf, htf2, hrec⟩
      · obtain ⟨hsup, hmono, hpg2⟩ := ih _ _ _ _ _ _ hrec hpg
        refine ⟨?_, hmono, hpg2⟩
        intro c hc
        rcases List.mem_cons.mp hc with rfl | h2
        · obtain ⟨comp, hcomp, hmem⟩ := hco c.name grp hg
          exact hmono _ (hpg grp hin comp hcomp c.name hmem)
        · exact hsup c h2
      · obtain ⟨hmemsup, hmemmono⟩ := processMembers_names_sup rand cfgByName
          tbl groupCols row _ _ _ _ _ hpm
        have hpg2in : ∀ g ∈ pg ++ [grp], ∀ comp,
            List.lookup g groups = some comp →
            ∀ nm ∈ comp, nm ∈ row2.map Prod.fst := by
          intro g hgin comp hcomp nm hnm
          rcases List.mem_append.mp hgin with h2 | h2
          · exact hmemmono _ (hpg g h2 comp hcomp nm hnm)
          · rw [List.mem_singleton.mp h2] at hcomp
            rw [hgl] at hcomp
            injection hcomp with h3
            rw [← h3] at hnm
            exact hmemsup nm hnm
        obtain ⟨hsup, hmono, hpg3⟩ := ih _ _ _ _ _ _ hrec hpg2in
        refine ⟨?_, fun n hn => hmono _ (hmemmono _ hn), hpg3⟩
        intro c hc
        rcases List.mem_cons.mp hc with rfl | h2
        · obtain ⟨comp, hcomp, hmem⟩ := hco c.name grp hg
          rw [hgl] at hcomp
          injection hcomp with h3
          rw [← h3] at hmem
          exact hmono _ (hmemsup c.name hmem)
        · exact hsup c h2
      · have hpgin : ∀ g ∈ pg, ∀ comp, List.lookup g groups = some comp →
            ∀ nm ∈ comp, nm ∈ (rowInsert row col.name (some v)).map Prod.fst :=
          fun g h2 comp hcomp nm hnm =>
            (mem_rowInsert_keys _ _ _ _).mpr (Or.inl (hpg g h2 comp hcomp nm hnm))
        obtain ⟨hsup, hmono, hpg3⟩ := ih _ _ _ _ _ _ hrec hpgin
        refine ⟨?_, ?_, hpg3⟩
        · intro c hc
          rcases List.mem_cons.mp hc with rfl | h2
          · exact hmono _ ((mem_rowInsert_keys _ _ _ _).mpr (Or.inr rfl))
          · exact hsup c h2
        · intro n hn
          exact hmono _ ((mem_rowInsert_keys _ _ _ _).mpr (Or.inl hn))
      · have hpgin : ∀ g ∈ pg, ∀ comp, List.lookup g groups = some comp →
            ∀ nm ∈ comp, nm ∈ (rowInsert row col.name (some v)).map Prod.fst :=
          fun g h2 comp hcomp nm hnm =>
            (mem_rowInsert_keys _ _ _ _).mpr (Or.inl (hpg g h2 comp hcomp nm hnm))
        obtain ⟨hsup, hmono, hpg3⟩ := ih _ _ _ _ _ _ hrec hpgin
        refine ⟨?_, ?_, hpg3⟩
        · intro c hc
          rcases List.mem_cons.mp hc with rfl | h2
          · exact hmono _ ((mem_rowInsert_keys _ _ _ _).mpr (Or.inr rfl))
          · exact hsup c h2
        · intro n hn
          exact hmono _ ((mem_rowInsert_keys _ _ _ _).mpr (Or.inl hn))
      · have hpgin : ∀ g ∈ pg, ∀ comp, List.lookup g groups = some comp →
            ∀ nm ∈ comp, nm ∈ (rowInsert row col.name none).map Prod.fst :=
          fun g h2 comp hcomp nm hnm =>
            (mem_rowInsert_keys _ _ _ _).mpr (Or.inl (hpg g h2 comp hcomp nm hnm))
        obtain ⟨hsup, hmono, hpg3⟩ := ih _ _ _ _ _ _ hrec hpgin
        refine ⟨?_, ?_, hpg3⟩
        · intro c hc
          rcases List.mem_cons.mp hc with rfl | h2
          · exact hmono _ ((mem_rowInsert_keys _ _ _ _).mpr (Or.inr rfl))
          · exact hsup c h2
        · intro n hn
          exact hmono _ ((mem_rowInsert_keys _ _ _ _).mpr (Or.inl hn))

/-- C5 corrected: a successful run returns exactly `file_size` (default 1000)
rows, every row carries the identical key list, and the key set of every row
is exactly the set of configured column names.  The order of that shared key
list, however, is not position-ascending in general: a dependency group's
members are all emitted at the position of the group's first member (see the
counterexample). -/
theorem c5_row_count_and_uniform_keys (rand : Nat → Nat)
    (fs : String → Option (List (List String)))
    (fakerFn : String → Option (Nat → String)) (cfg : Config)
    (rows : List Row) (h : generate_data rand fs fakerFn cfg = .ok rows) :
    rows.length = cfg.file_size.getD 1000 ∧
    (∀ r1 ∈ rows, ∀ r2 ∈ rows, r1.map Prod.fst = r2.map Prod.fst) ∧
    (∀ r ∈ rows, ∀ n, n ∈ r.map Prod.fst ↔
      ∃ col ∈ cfg.columns, col.name = n) := by
  obtain ⟨cache, k, hpre, hgen⟩ := generate_data_ok_elim rand fs fakerFn cfg
    rows h
  have hperm := sortCols_perm cfg.columns
  refine ⟨?_, ?_, ?_⟩
  · have := genRows_length rand fakerFn cache
      (build_dependency_groups (sortCols cfg.columns)).1
      (build_dependency_groups (sortCols cfg.columns)).2
      (col_config_by_name (sortCols cfg.columns)) (sortCols cfg.columns)
      (cfg.file_size.getD 1000) [] 0 rows k hgen
    simpa using this
  · intro r1 hr1 r2 hr2
    rcases genRows_provenance rand fakerFn cache _ _ _ _ _ _ _ _ _ hgen r1 hr1
      with hmem | ⟨k3, pg3, k4, hpc1⟩
    · simp at hmem
    rcases genRows_provenance rand fakerFn cache _ _ _ _ _ _ _ _ _ hgen r2 hr2
      with hmem | ⟨k5, pg5, k6, hpc2⟩
    · simp at hmem
    have e1 := processColumns_keys rand fakerFn cache _ _ _ _ _ _ _ _ _ _ hpc1
    have e2 := processColumns_keys rand fakerFn cache _ _ _ _ _ _ _ _ _ _ hpc2
    have := e1.trans e2.symm
    exact congrArg Prod.fst this
  · intro r hr n
    rcases genRows_provenance rand fakerFn cache _ _ _ _ _ _ _ _ _ hgen r hr
      with hmem | ⟨k3, pg3, k4, hpc⟩
    · simp at hmem
    constructor
    · intro hn
      rcases processColumns_names_sub rand fakerFn cache _ _ _ _ _ _ _ _ _ _
        hpc n hn with h2 | h2 | h2
      · simp at h2
      · obtain ⟨c, hc⟩ := h2
        obtain ⟨hcin, hcname⟩ := col_config_by_name_some _ _ _ hc
        exact ⟨c, hperm.mem_iff.mp hcin, hcname⟩
      · obtain ⟨c, hcin, hcname⟩ := h2
        exact ⟨c, hperm.mem_iff.mp hcin, hcname⟩
    · rintro ⟨c, hcin, hcname⟩
      have hsup := processColumns_names_sup rand fakerFn cache _ _ _
        (fun nm grp hl => bdg_coherent (sortCols cfg.columns) nm grp hl)
        (sortCols cfg.columns) [] [] k3 r pg3 k4 hpc
        (by intro g hg; simp at hg)
      rw [← hcname]
      exact hsup.1 c (hperm.mem_iff.mpr hcin)

/-- Witness for C5 (amended) at a concrete input: a two-row run over one
unconfigured column. -/
theorem c5_witness :
    ([[("a", (none : Option String))], [("a", none)]] : List Row).length = 2 :=
  (c5_row_count_and_uniform_keys (fun _ => 0) (fun _ => none) (fun _ => none)
    { file_size := some 2, columns := [{ name := "a", position := 1 }] }
    [[("a", none)], [("a", none)]] rfl).1

/-! ### Validation of emitted values (C4) -/

lemma fakerRetryLoop_zero (gen : Nat → String) (pat : Option Pattern)
    (value : String) (retries k : Nat) :
    fakerRetryLoop gen pat 0 value retries k = (value, retries, k) := by
  unfold fakerRetryLoop
  by_cases h : validate_value value pat <;> simp [h]

lemma fakerRetryLoop_succ (gen : Nat → String) (pat : Option Pattern)
    (f : Nat) (value : String) (retries k : Nat) :
    fakerRetryLoop gen pat (f + 1) value retries k =
      if validate_value value pat then (value, retries, k)
      else fakerRetryLoop gen pat f (gen k) (retries + 1) (k + 1) := rfl

lemma fakerRetryLoop_counts (gen : Nat → String) (pat : Option Pattern) :
    ∀ fuel value retries k v ret k2,
      fakerRetryLoop gen pat fuel value retries k = (v, ret, k2) →
      retries ≤ ret ∧ ret ≤ retries + fuel ∧ k2 = k + (ret - retries) := by
  intro fuel
  induction fuel with
  | zero =>
      intro value retries k v ret k2 h
      rw [fakerRetryLoop_zero] at h
      simp only [Prod.mk.injEq] at h
      omega
  | succ f ih =>
      intro value retries k v ret k2 h
      rw [fakerRetryLoop_succ] at h
      by_cases hv : validate_value value pat
      · rw [if_pos hv] at h
        simp only [Prod.mk.injEq] at h
        omega
      · rw [if_neg hv] at h
        have := ih (gen k) (retries + 1) (k + 1) v ret k2 h
        omega

lemma fakerRetryLoop_valid_of_lt (gen : Nat → String) (pat : Option Pattern) :
    ∀ fuel value retries k v ret k2,
      fakerRetryLoop gen pat fuel value retries k = (v, ret, k2) →
      ret < retries + fuel → validate_value v pat = true := by
  intro fuel
  induction fuel with
  | zero =>
      intro value retries k v ret k2 h hlt
      rw [fakerRetryLoop_zero] at h
      simp only [Prod.mk.injEq] at h
      omega
  | succ f ih =>
      intro value retries k v ret k2 h hlt
      rw [fakerRetryLoop_succ] at h
      by_cases hv : validate_value value pat
      · rw [if_pos hv] at h
        simp only [Prod.mk.injEq] at h
        rw [← h.1]; exact hv
      · rw [if_neg hv] at h
        have := fakerRetryLoop_counts gen pat f (gen k) (retries + 1) (k + 1)
          v ret k2 h
        exact ih (gen k) (retries + 1) (k + 1) v ret k2 h (by omega)

lemma processMembers_valid (rand : Nat → Nat)
    (cfgByName : String → Option Column) (tbl : List (List String)) :
    ∀ (names : List String) (row : Row) (cr : List String) (k : Nat)
      (out : Row) (cr2 : List String) (k2 : Nat),
      processMembers rand cfgByName tbl names row cr k = .ok (out, cr2, k2) →
      (∀ n c p v, cfgByName n = some c → c.validation_regex = some p →
        rowLookup row n = some (some v) → p.rmatch v.toList = true) →
      (∀ n c p v, cfgByName n = some c → c.validation_regex = some p →
        rowLookup out n = some (some v) → p.rmatch v.toList = true) := by
  intro names
  induction names with
  | nil =>
      intro row cr k out cr2 k2 h hrow
      simp only [processMembers, Except.ok.injEq, Prod.mk.injEq] at h
      rw [← h.1]
      exact hrow
  | cons name rest ih =>
      intro row cr k out cr2 k2 h hrow
      obtain ⟨cfg, colIndex, value, v, crNew, ret, k3, hc, hi, hcell, hloop,
        hret, hrec⟩ := processMembers_cons_elim rand cfgByName tbl name rest
          row cr k out cr2 k2 h
      refine ih _ _ _ _ _ _ hrec ?_
      intro n c p w hcn hcp hlook
      rw [rowLookup_rowInsert] at hlook
      by_cases hn : n = name
      · rw [if_pos hn] at hlook
        injection hlook with h2
        injection h2 with h3
        rw [hn] at hcn
        rw [hc] at hcn
        injection hcn with h4
        have hvalid := refRetryLoop_valid_of_lt rand tbl colIndex
          cfg.validation_regex 10 value cr 0 k v crNew ret k3 hloop
          (by omega)
        rw [← h4] at hcp
        rw [hcp] at hvalid
        simp only [validate_value] at hvalid
        rw [← h3]
        simpa [String.toList] using hvalid
      · rw [if_neg hn] at hlook
        exact hrow n c p w hcn hcp hlook

lemma processColumns_valid (rand : Nat → Nat)
    (fakerFn : String → Option (Nat → String)) (cache : Cache)
    (ctg : List (String × Nat)) (groups : List (Nat × List String))
    (cfgByName : String → Option Column) :
    ∀ (cols : List Column) (row : Row) (pg : List Nat) (k : Nat) (out : Row)
      (pg2 : List Nat) (k2 : Nat),
      processColumns rand fakerFn cache ctg groups cfgByName cols row pg k =
        .ok (out, pg2, k2) →
      (∀ col ∈ cols, cfgByName col.name = some col) →
      (∀ n c p v, cfgByName n = some c → c.validation_regex = some p →
        rowLookup row n = some (some v) → p.rmatch v.toList = true) →
      (∀ n c p v, cfgByName n = some c → c.validation_regex = some p →
        rowLookup out n = some (some v) → p.rmatch v.toList = true) := by
  intro cols
  induction cols with
  | nil =>
      intro row pg k out pg2 k2 h _ hrow
      simp only [processColumns, Except.ok.injEq, Prod.mk.injEq] at h
      rw [← h.1]
      exact hrow
  | cons col rest ih =>
      intro row pg k out pg2 k2 h hcoh hrow
      have hcohr : ∀ c ∈ rest, cfgByName c.name = some c :=
        fun c hc => hcoh c (List.mem_cons_of_mem _ hc)
      rcases processColumns_cons_elim rand fakerFn cache ctg groups cfgByName
        col rest row pg k out pg2 k2 h with
        ⟨grp, hg, hin, hrec⟩ |
        ⟨grp, groupCols, files, path, tbl, row2, cr2, k3, hg, hnin, hgl, hfl,
          hded, hca, hpm, hrec⟩ |
        ⟨path, tbl, colIndex, value, v, cr, ret, k3, hg, hcsv, hpne, hca, hi,
          hcell, hloop, hret, hrec⟩ |
        ⟨tag, gen, v, ret, k3, hg, htf, hdt, hfk, hfl, hret, hrec⟩ |
        ⟨hg, htf, htf2, hrec⟩
      · exact ih _ _ _ _ _ _ hrec hcohr hrow
      · exact ih _ _ _ _ _ _ hrec hcohr
          (processMembers_valid rand cfgByName tbl groupCols row _ _ _ _ _
            hpm hrow)
      · refine ih _ _ _ _ _ _ hrec hcohr ?_
        intro n c p w hcn hcp hlook
        rw [rowLookup_rowInsert] at hlook
        by_cases hn : n = col.name
        · rw [if_pos hn] at hlook
          injection hlook with h2
          injection h2 with h3
          rw [hn] at hcn
          rw [hcoh col (List.mem_cons_self _ _)] at hcn
          injection hcn with h4
          have hvalid := refRetryLoop_valid_of_lt rand tbl colIndex
            col.validation_regex 10 value (pyChoice rand k tbl) 0 (k + 1) v
            cr ret k3 hloop (by omega)
          rw [← h4] at hcp
          rw [hcp] at hvalid
          simp only [validate_value] at hvalid
          rw [← h3]
          simpa [String.toList] using hvalid
        · rw [if_neg hn] at hlook
          exact hrow n c p w hcn hcp hlook
      · refine ih _ _ _ _ _ _ hrec hcohr ?_
        intro n c p w hcn hcp hlook
        rw [rowLookup_rowInsert] at hlook
        by_cases hn : n = col.name
        · rw [if_pos hn] at hlook
          injection hlook with h2
          injection h2 with h3
          rw [hn] at hcn
          rw [hcoh col (List.mem_cons_self _ _)] at hcn
          injection hcn with h4
          have hvalid := fakerRetryLoop_valid_of_lt gen col.validation_regex
            10 (gen k) 0 (k + 1) v ret k3 hfl (by omega)
          rw [← h4] at hcp
          rw [hcp] at hvalid
          simp only [validate_value] at hvalid
          rw [← h3]
          simpa [String.toList] using hvalid
        · rw [if_neg hn] at hlook
          exact hrow n c p w hcn hcp hlook
      · refine ih _ _ _ _ _ _ hrec hcohr ?_
        intro n c p w hcn hcp hlook
        rw [rowLookup_rowInsert] at hlook
        by_cases hn : n = col.name
        · rw [if_pos hn] at hlook
          cases hlook
        · rw [if_neg hn] at hlook
          exact hrow n c p w hcn hcp hlook

lemma col_config_stable (n : String) :
    ∀ (cols : List Column) (acc : Option Column),
      (∀ c ∈ cols, c.name ≠ n) →
      List.foldl (fun acc c => if c.name = n then some c else acc) acc cols =
        acc := by
  intro cols
  induction cols with
  | nil => intro acc _; rfl
  | cons col rest ih =>
      intro acc hne
      rw [List.foldl_cons, if_neg (hne col (List.mem_cons_self _ _))]
      exact ih acc (fun c hc => hne c (List.mem_cons_of_mem _ hc))

lemma col_config_by_name_self (cols : List Column)
    (hnd : (cols.map Column.name).Nodup) (col : Column) (hcol : col ∈ cols) :
    col_config_by_name cols col.name = some col := by
  induction cols with
  | nil => simp at hcol
  | cons c rest ih =>
      rw [List.map_cons, List.nodup_cons] at hnd
      rcases List.mem_cons.mp hcol with rfl | h2
      · unfold col_config_by_name
        rw [List.foldl_cons, if_pos rfl]
        refine col_config_stable col.name rest (some col) ?_
        intro c2 hc2 hc2n
        exact hnd.1 (hc2n ▸ List.mem_map_of_mem Column.name hc2)
      · have hne : ¬ c.name = col.name := by
          intro he
          exact hnd.1 (he ▸ List.mem_map_of_mem Column.name h2)
        unfold col_config_by_name at ih ⊢
        rw [List.foldl_cons, if_neg hne]
        exact ih hnd.2 h2

/-- C4: in every row of a successful run, each column that declares a
validation pattern holds a value that fully matches it: the value's whole
character list lies in the pattern's language (full-string match, not a
substring match), across all three value-producing strategies; a column
without a pattern accepts any value. -/
theorem c4_output_values_fully_match (rand : Nat → Nat)
    (fs : String → Option (List (List String)))
    (fakerFn : String → Option (Nat → String)) (cfg : Config)
    (rows : List Row) (hnd : (cfg.columns.map Column.name).Nodup)
    (h : generate_data rand fs fakerFn cfg = .ok rows) :
    (∀ r ∈ rows, ∀ col ∈ cfg.columns, ∀ p, col.validation_regex = some p →
      ∀ v, rowLookup r col.name = some (some v) →
        p.rmatch v.toList = true ∧ v.toList ∈ p.matches') ∧
    (∀ v : String, validate_value v none = true) := by
  refine ⟨?_, fun v => rfl⟩
  obtain ⟨cache, k, hpre, hgen⟩ := generate_data_ok_elim rand fs fakerFn cfg
    rows h
  have hnd2 : ((sortCols cfg.columns).map Column.name).Nodup :=
    (List.Perm.nodup_iff ((sortCols_perm cfg.columns).map Column.name)).mpr hnd
  intro r hr col hcol p hp v hlook
  rcases genRows_provenance rand fakerFn cache _ _ _ _ _ _ _ _ _ hgen r hr
    with hmem | ⟨k3, pg3, k4, hpc⟩
  · simp at hmem
  have hvalid := processColumns_valid rand fakerFn cache _ _ _
    (sortCols cfg.columns) [] [] k3 r pg3 k4 hpc
    (fun c hc => col_config_by_name_self _ hnd2 c hc)
    (by intro n c p2 v2 _ _ hlk; simp [rowLookup] at hlk)
    col.name col p v
    (col_config_by_name_self _ hnd2 col
      ((sortCols_perm cfg.columns).mem_iff.mpr hcol))
    hp hlook
  exact ⟨hvalid,
    (RegularExpression.rmatch_iff_matches' p v.toList).mp hvalid⟩

/-- Witness for C4 at a concrete input: a run whose reference column carries
the pattern `US` emits only fully matching values. -/
theorem c4_witness :
    (RegularExpression.char 'U' * RegularExpression.char 'S' :
      Pattern).rmatch "US".toList = true ∧
    "US".toList ∈ (RegularExpression.char 'U' * RegularExpression.char 'S' :
      Pattern).matches' :=
  (c4_output_values_fully_match (fun _ => 0)
    (fun q => if q = "t" then some [["h"], ["US"]] else none) (fun _ => none)
    { file_size := some 1,
      columns := [{ name := "a", position := 1, valid_values_csv := some "t",
                    valid_values_csv_column_index := some 0,
                    validation_regex :=
                      some (RegularExpression.char 'U' *
                        RegularExpression.char 'S') }] }
    [[("a", some "US")]] (by decide) rfl).1
    [("a", some "US")] (List.mem_singleton.mpr rfl)
    { name := "a", position := 1, valid_values_csv := some "t",
      valid_values_csv_column_index := some 0,
      validation_regex :=
        some (RegularExpression.char 'U' * RegularExpression.char 'S') }
    (List.mem_singleton.mpr rfl) _ rfl "US" rfl

/-! ### Inconsistent group sources (C7) -/

lemma sortCols_pair (a b : Column) :
    sortCols [a, b] = if b.position < a.position then [b, a] else [a, b] := by
  by_cases h : b.position < a.position <;>
    simp [sortCols, insertByPos, h]

lemma buildGraph_pair_left (a b : Column) (hne : a.name ≠ b.name)
    (hlink : a.same_valid_value_row_as_column = some b.name)
    (hbn : b.name ≠ "")
    (hblink : b.same_valid_value_row_as_column = none) :
    buildGraph [a, b] = [(a.name, [b.name]), (b.name, [a.name])] := by
  simp [buildGraph, addNbr, hlink, hblink, hbn, hne]

lemma buildGraph_pair_right (a b : Column) (hne : a.name ≠ b.name)
    (hlink : a.same_valid_value_row_as_column = some b.name)
    (hbn : b.name ≠ "")
    (hblink : b.same_valid_value_row_as_column = none) :
    buildGraph [b, a] = [(a.name, [b.name]), (b.name, [a.name])] := by
  simp [buildGraph, addNbr, hlink, hblink, hbn, hne]

lemma bdg_pair (a b : Column) (hne : a.name ≠ b.name)
    (g : Graph) (cols : List Column)
    (hg : buildGraph cols = [(a.name, [b.name]), (b.name, [a.name])]) :
    build_dependency_groups cols =
      ([(a.name, 0), (b.name, 0)], [(0, [a.name, b.name])]) := by
  have hne2 : b.name ≠ a.name := fun h => hne h.symm
  simp only [build_dependency_groups, hg]
  simp [bdgStep, dfsAux, dfsList, nbrs, List.find?_cons, hne, hne2,
    List.lookup, GroupState.visited, GroupState.col_to_group,
    GroupState.group_id, GroupState.groups]

lemma c7_pc_error (rand : Nat → Nat)
    (fakerFn : String → Option (Nat → String)) (cache : Cache)
    (ctg : List (String × Nat)) (groups : List (Nat × List String))
    (cfgByName : String → Option Column) (x : Column) (rest : List Column)
    (row : Row) (pg : List Nat) (k : Nat) (an bn p1 p2 : String)
    (hx : List.lookup x.name ctg = some 0) (hnin : 0 ∉ pg)
    (hgl : List.lookup 0 groups = some [an, bn])
    (hfl : groupCsvFiles cfgByName [an, bn] = .ok [some p1, some p2])
    (hpp : p1 ≠ p2) :
    processColumns rand fakerFn cache ctg groups cfgByName (x :: rest) row pg
      k = .error (.inconsistentGroupSource [an, bn]) := by
  have hded : ([some p1, some p2] : List (Option String)).dedup =
      [some p1, some p2] := by
    rw [List.dedup_cons_of_not_mem (by simp [hpp])]
    rw [show ([some p2] : List (Option String)).dedup = [some p2] from
      List.dedup_cons_of_not_mem (by simp)]
  simp only [processColumns, hx, hnin, if_false, hgl, hfl, hded]

lemma preload_ok_of_loadable (fs : String → Option (List (List String))) :
    ∀ (cols : List Column) (cache : Cache),
      (∀ col ∈ cols, ∀ p, col.valid_values_csv = some p → p ≠ "" →
        ∃ rows, load_valid_values fs p = .ok rows) →
      ∃ cache2, preload fs cols cache = .ok cache2 := by
  intro cols
  induction cols with
  | nil => intro cache _; exact ⟨cache, rfl⟩
  | cons col rest ih =>
      intro cache hload
      have hrest : ∀ c ∈ rest, ∀ p, c.valid_values_csv = some p → p ≠ "" →
          ∃ rows, load_valid_values fs p = .ok rows :=
        fun c hc => hload c (List.mem_cons_of_mem _ hc)
      cases hcsv : col.valid_values_csv with
      | none => rw [preload_cons_none fs col rest cache hcsv]; exact ih cache hrest
      | some p =>
          rw [preload_cons_some fs col rest cache p hcsv]
          by_cases hp : p = ""
          · rw [if_pos hp]; exact ih cache hrest
          · rw [if_neg hp]
            by_cases hc : (cacheLookup cache p).isSome
            · rw [if_pos hc]; exact ih cache hrest
            · rw [if_neg hc]
              obtain ⟨rows, hrows⟩ := hload col (List.mem_cons_self _ _) p
                hcsv hp
              rw [hrows]
              exact ih _ hrest

/-- C7: two linked columns declaring different reference sources make every
run with at least one requested row fail with `InconsistentGroupSource`
naming the group's member columns; the check happens at resolution time —
with zero requested rows the same configuration succeeds, since
`build_dependency_groups` itself never raises. -/
theorem c7_inconsistent_sources_fail_at_resolution (rand : Nat → Nat)
    (fs : String → Option (List (List String)))
    (fakerFn : String → Option (Nat → String)) (a b : Column)
    (p1 p2 : String) (c1 c2 : List (List String)) (m : Nat)
    (hne : a.name ≠ b.name)
    (hlink : a.same_valid_value_row_as_column = some b.name)
    (hbn : b.name ≠ "")
    (hblink : b.same_valid_value_row_as_column = none)
    (hacsv : a.valid_values_csv = some p1) (hp1 : p1 ≠ "")
    (hbcsv : b.valid_values_csv = some p2) (hp2 : p2 ≠ "")
    (hpp : p1 ≠ p2)
    (hfs1 : fs p1 = some c1) (ht1 : c1.drop 1 ≠ [])
    (hfs2 : fs p2 = some c2) (ht2 : c2.drop 1 ≠ []) :
    (∃ comp,
      generate_data rand fs fakerFn
        { file_size := some (m + 1), columns := [a, b] } =
        .error (.inconsistentGroupSource comp) ∧
      a.name ∈ comp ∧ b.name ∈ comp) ∧
    generate_data rand fs fakerFn
      { file_size := some 0, columns := [a, b] } = .ok [] := by
  have hne2 : b.name ≠ a.name := fun h => hne h.symm
  have horder : sortCols [a, b] = [b, a] ∨ sortCols [a, b] = [a, b] := by
    rw [sortCols_pair]
    by_cases h : b.position < a.position
    · rw [if_pos h]; exact Or.inl rfl
    · rw [if_neg h]; exact Or.inr rfl
  have hloadable : ∀ col ∈ sortCols [a, b], ∀ p,
      col.valid_values_csv = some p → p ≠ "" →
      ∃ rows, load_valid_values fs p = .ok rows := by
    intro col hcol p hp _
    have hmem : col ∈ [a, b] := (sortCols_perm [a, b]).mem_iff.mp hcol
    rcases List.mem_cons.mp hmem with rfl | hmem2
    · rw [hacsv] at hp; injection hp with hp3
      subst hp3
      exact ⟨c1.drop 1,
        by rw [load_valid_values_some fs p1 c1 hfs1, if_neg ht1]⟩
    · have hcb : col = b := List.mem_singleton.mp hmem2
      rw [hcb, hbcsv] at hp
      injection hp with hp3
      subst hp3
      exact ⟨c2.drop 1,
        by rw [load_valid_values_some fs p2 c2 hfs2, if_neg ht2]⟩
  obtain ⟨cache, hcache⟩ := preload_ok_of_loadable fs (sortCols [a, b]) []
    hloadable
  have hbdgr : build_dependency_groups (sortCols [a, b]) =
      ([(a.name, 0), (b.name, 0)], [(0, [a.name, b.name])]) := by
    rcases horder with hs | hs
    · rw [hs]
      exact bdg_pair a b hne [] _ (buildGraph_pair_right a b hne hlink
        hbn hblink)
    · rw [hs]
      exact bdg_pair a b hne [] _ (buildGraph_pair_left a b hne hlink
        hbn hblink)
  have hcfa : col_config_by_name (sortCols [a, b]) a.name = some a := by
    rcases horder with hs | hs <;>
      rw [hs] <;> simp [col_config_by_name, hne, hne2]
  have hcfb : col_config_by_name (sortCols [a, b]) b.name = some b := by
    rcases horder with hs | hs <;>
      rw [hs] <;> simp [col_config_by_name, hne, hne2]
  have hfl : groupCsvFiles (col_config_by_name (sortCols [a, b]))
      [a.name, b.name] = .ok [some p1, some p2] := by
    simp [groupCsvFiles, hcfa, hcfb, hacsv, hbcsv]
  have herr : ∀ k, processColumns rand fakerFn cache
      ([(a.name, 0), (b.name, 0)]) ([(0, [a.name, b.name])])
      (col_config_by_name (sortCols [a, b])) (sortCols [a, b]) [] [] k =
      .error (.inconsistentGroupSource [a.name, b.name]) := by
    intro k
    have hbb : (b.name == a.name) = false := by
      simp only [beq_eq_false_iff_ne, ne_eq]
      exact hne2
    rcases horder with hs | hs
    · rw [hs] at hfl ⊢
      exact c7_pc_error rand fakerFn cache _ _ _ b [a] [] [] k a.name b.name
        p1 p2 (by simp [List.lookup, hbb]) (by simp) (by simp [List.lookup])
        hfl hpp
    · rw [hs] at hfl ⊢
      exact c7_pc_error rand fakerFn cache _ _ _ a [b] [] [] k a.name b.name
        p1 p2 (by simp [List.lookup]) (by simp) (by simp [List.lookup])
        hfl hpp
  constructor
  · refine ⟨[a.name, b.name], ?_, by simp, by simp⟩
    simp only [generate_data, generate_data', hcache, hbdgr,
      Option.getD_some]
    simp only [genRows, herr 0]
    rfl
  · simp only [generate_data, generate_data', hcache, hbdgr,
      Option.getD_some]
    rfl

/-- Witness for C7 at a concrete input. -/
theorem c7_witness :
    generate_data (fun _ => 0)
      (fun q => if q = "p1" then some [["h"], ["x"]]
        else if q = "p2" then some [["h"], ["y"]] else none)
      (fun _ => none)
      { file_size := some 0,
        columns :=
          [{ name := "a", position := 1, valid_values_csv := some "p1",
             valid_values_csv_column_index := some 0,
             same_valid_value_row_as_column := some "b" },
           { name := "b", position := 2, valid_values_csv := some "p2",
             valid_values_csv_column_index := some 0 }] } = .ok [] :=
  (c7_inconsistent_sources_fail_at_resolution (fun _ => 0)
    (fun q => if q = "p1" then some [["h"], ["x"]]
      else if q = "p2" then some [["h"], ["y"]] else none)
    (fun _ => none)
    { name := "a", position := 1, valid_values_csv := some "p1",
      valid_values_csv_column_index := some 0,
      same_valid_value_row_as_column := some "b" }
    { name := "b", position := 2, valid_values_csv := some "p2",
      valid_values_csv_column_index := some 0 }
    "p1" "p2" [["h"], ["x"]] [["h"], ["y"]] 0
    (by decide) rfl (by decide) rfl rfl (by decide) rfl (by decide)
    (by decide) (by decide) (by decide) (by decide) (by decide)).2

/-! ### The link graph: edges and keys (C8) -/

lemma nbrs_eq_nil_of_not_key (g : Graph) (x : String)
    (h : x ∉ graphKeys g) : nbrs g x = [] := by
  unfold nbrs
  cases hf : g.find? (fun p => decide (p.1 = x)) with
  | none => rfl
  | some p =>
      exfalso
      have hm := List.mem_of_find?_eq_some hf
      have hp := List.find?_some hf
      simp only [decide_eq_true_eq] at hp
      exact h (hp ▸ List.mem_map_of_mem (fun p => p.1) hm)

lemma nbrs_cons (p : String × List String) (g : Graph) (x : String) :
    nbrs (p :: g) x = if p.1 = x then p.2 else nbrs g x := by
  unfold nbrs
  by_cases h : p.1 = x
  · rw [List.find?_cons_of_pos _ (by simp [h]), if_pos h]
  · rw [List.find?_cons_of_neg _ (by simp [h]), if_neg h]

lemma graphKeys_cons (p : String × List String) (g : Graph) :
    graphKeys (p :: g) = p.1 :: graphKeys g := rfl

lemma nbrs_map_update (g : Graph) (a b : String) (x : String) :
    nbrs (g.map (fun p => if p.1 = a then
      (p.1, if b ∈ p.2 then p.2 else p.2 ++ [b]) else p)) x =
      if x = a ∧ a ∈ graphKeys g then
        (if b ∈ nbrs g a then nbrs g a else nbrs g a ++ [b])
      else nbrs g x := by
  induction g with
  | nil => simp [nbrs, graphKeys]
  | cons p g ih =>
      have hfst : (if p.1 = a then
          (p.1, if b ∈ p.2 then p.2 else p.2 ++ [b]) else p).1 = p.1 := by
        by_cases hp : p.1 = a <;> simp [hp]
      rw [List.map_cons, nbrs_cons]
      by_cases hpx : p.1 = x
      · rw [if_pos (hfst.trans hpx)]
        by_cases hxa : x = a
        · have hpa : p.1 = a := hpx.trans hxa
          have hcond : x = a ∧ a ∈ graphKeys (p :: g) :=
            ⟨hxa, by rw [graphKeys_cons, hpa]; exact List.mem_cons_self _ _⟩
          have hna : nbrs (p :: g) a = p.2 := by
            rw [nbrs_cons, if_pos hpa]
          have hupd : (if p.1 = a then
              (p.1, if b ∈ p.2 then p.2 else p.2 ++ [b]) else p) =
              (p.1, if b ∈ p.2 then p.2 else p.2 ++ [b]) := if_pos hpa
          rw [if_pos hcond, hna, hupd]
        · have hpa : ¬ p.1 = a := fun hc => hxa (hpx.symm.trans hc)
          have hnx : nbrs (p :: g) x = p.2 := by
            rw [nbrs_cons, if_pos hpx]
          have hupd : (if p.1 = a then
              (p.1, if b ∈ p.2 then p.2 else p.2 ++ [b]) else p) = p :=
            if_neg hpa
          rw [if_neg (show ¬ (x = a ∧ a ∈ graphKeys (p :: g)) from
            fun hc => hxa hc.1), hnx, hupd]
      · rw [if_neg (by rw [hfst]; exact hpx)]
        rw [ih]
        by_cases hxa : x = a
        · have hpa : ¬ p.1 = a := fun hc => hpx (hc.trans hxa.symm)
          have hna : nbrs (p :: g) a = nbrs g a := by
            rw [nbrs_cons, if_neg hpa]
          have hnx : nbrs (p :: g) x = nbrs g x := by
            rw [nbrs_cons, if_neg hpx]
          have hkeys : a ∈ graphKeys (p :: g) ↔ a ∈ graphKeys g := by
            rw [graphKeys_cons]
            constructor
            · intro h
              rcases List.mem_cons.mp h with h2 | h2
              · exact absurd h2.symm hpa
              · exact h2
            · exact List.mem_cons_of_mem _
          by_cases hk : a ∈ graphKeys g
          · rw [if_pos (show x = a ∧ a ∈ graphKeys g from ⟨hxa, hk⟩),
              if_pos (show x = a ∧ a ∈ graphKeys (p :: g) from
                ⟨hxa, hkeys.mpr hk⟩), hna]
          · rw [if_neg (show ¬ (x = a ∧ a ∈ graphKeys g) from
                fun hc => hk hc.2),
              if_neg (show ¬ (x = a ∧ a ∈ graphKeys (p :: g)) from
                fun hc => hk (hkeys.mp hc.2)), hnx]
        · have hnx : nbrs (p :: g) x = nbrs g x := by
            rw [nbrs_cons, if_neg hpx]
          rw [if_neg (show ¬ (x = a ∧ a ∈ graphKeys g) from
              fun hc => hxa hc.1),
            if_neg (show ¬ (x = a ∧ a ∈ graphKeys (p :: g)) from
              fun hc => hxa hc.1), hnx]

lemma graph_any_iff_mem (g : Graph) (a : String) :
    g.any (fun p => decide (p.1 = a)) = true ↔ a ∈ graphKeys g := by
  rw [List.any_eq_true]
  constructor
  · rintro ⟨p, hp, hpa⟩
    simp only [decide_eq_true_eq] at hpa
    exact hpa ▸ List.mem_map_of_mem _ hp
  · intro h
    obtain ⟨p, hp, hpa⟩ := List.mem_map.mp h
    exact ⟨p, hp, by simp [hpa]⟩

lemma nbrs_append_new (g : Graph) (a b x : String) (hk : a ∉ graphKeys g) :
    nbrs (g ++ [(a, [b])]) x = if x = a then [b] else nbrs g x := by
  induction g with
  | nil =>
      rw [List.nil_append, nbrs_cons]
      by_cases h : x = a
      · rw [if_pos h, if_pos h.symm]
      · rw [if_neg h, if_neg (fun hc => h hc.symm)]
  | cons p g ih =>
      have hpa : ¬ p.1 = a := by
        intro hc
        exact hk (hc ▸ List.mem_map_of_mem _ (List.mem_cons_self _ _))
      have hk2 : a ∉ graphKeys g :=
        fun hc => hk (List.mem_cons_of_mem _ hc)
      rw [List.cons_append, nbrs_cons, nbrs_cons, ih hk2]
      by_cases hx : x = a
      · have hpx : ¬ p.1 = x := fun hc => hpa (hc.trans hx)
        rw [if_neg hpx, if_pos hx, if_pos hx]
      · rw [if_neg hx, if_neg hx]

lemma mem_nbrs_addNbr (g : Graph) (a b x y : String) :
    y ∈ nbrs (addNbr g a b) x ↔ y ∈ nbrs g x ∨ (x = a ∧ y = b) := by
  unfold addNbr
  by_cases hany : g.any (fun p => decide (p.1 = a)) = true
  · rw [if_pos hany, nbrs_map_update]
    have hkey : a ∈ graphKeys g := (graph_any_iff_mem g a).mp hany
    by_cases hx : x = a
    · rw [if_pos ⟨hx, hkey⟩]
      subst hx
      by_cases hb : b ∈ nbrs g x
      · rw [if_pos hb]
        constructor
        · exact Or.inl
        · rintro (h | ⟨-, rfl⟩)
          · exact h
          · exact hb
      · rw [if_neg hb]
        rw [List.mem_append, List.mem_singleton]
        constructor
        · rintro (h | h)
          · exact Or.inl h
          · exact Or.inr ⟨rfl, h⟩
        · rintro (h | ⟨-, rfl⟩)
          · exact Or.inl h
          · exact Or.inr rfl
    · rw [if_neg (fun hc => hx hc.1)]
      constructor
      · exact Or.inl
      · rintro (h | ⟨hc, -⟩)
        · exact h
        · exact absurd hc hx
  · rw [if_neg hany]
    have hkey : a ∉ graphKeys g := fun hc => hany ((graph_any_iff_mem g a).mpr hc)
    rw [nbrs_append_new g a b x hkey]
    by_cases hx : x = a
    · rw [if_pos hx, List.mem_singleton]
      subst hx
      rw [nbrs_eq_nil_of_not_key g x hkey]
      constructor
      · intro h; exact Or.inr ⟨rfl, h⟩
      · rintro (h | ⟨-, rfl⟩)
        · exact absurd h (by simp)
        · rfl
    · rw [if_neg hx]
      constructor
      · exact Or.inl
      · rintro (h | ⟨hc, -⟩)
        · exact h
        · exact absurd hc hx

lemma mem_graphKeys_addNbr (g : Graph) (a b x : String) :
    x ∈ graphKeys (addNbr g a b) ↔ x ∈ graphKeys g ∨ x = a := by
  unfold addNbr
  by_cases hany : g.any (fun p => decide (p.1 = a)) = true
  · rw [if_pos hany]
    have hkeys : graphKeys (g.map (fun p => if p.1 = a then
        (p.1, if b ∈ p.2 then p.2 else p.2 ++ [b]) else p)) = graphKeys g := by
      unfold graphKeys
      rw [List.map_map]
      refine List.map_congr_left ?_
      intro p _
      by_cases hp : p.1 = a <;> simp [hp]
    rw [hkeys]
    constructor
    · exact Or.inl
    · rintro (h | rfl)
      · exact h
      · exact (graph_any_iff_mem g x).mp hany
  · rw [if_neg hany]
    unfold graphKeys
    rw [List.map_append]
    simp

lemma mem_nbrs_buildGraph_fold :
    ∀ (cols : List Column) (g0 : Graph) (x y : String),
      y ∈ nbrs (List.foldl
        (fun g col =>
          match col.same_valid_value_row_as_column with
          | none => g
          | some r => if r = "" then g
              else addNbr (addNbr g col.name r) r col.name) g0 cols) x ↔
      y ∈ nbrs g0 x ∨ ∃ col ∈ cols, ∃ r,
        col.same_valid_value_row_as_column = some r ∧ r ≠ "" ∧
        ((x = col.name ∧ y = r) ∨ (x = r ∧ y = col.name)) := by
  intro cols
  induction cols with
  | nil => intro g0 x y; simp
  | cons col rest ih =>
      intro g0 x y
      rw [List.foldl_cons]
      cases hsame : col.same_valid_value_row_as_column with
      | none =>
          simp only [hsame]
          rw [ih]
          simp only [List.mem_cons, exists_eq_or_imp, hsame]
          constructor
          · rintro (h | h)
            · exact Or.inl h
            · exact Or.inr (Or.inr h)
          · rintro (h | h | h)
            · exact Or.inl h
            · obtain ⟨r, hr, -⟩ := h; cases hr
            · exact Or.inr h
      | some r =>
          by_cases hr : r = ""
          · simp only [hsame, hr, if_true]
            rw [ih]
            simp only [List.mem_cons, exists_eq_or_imp, hsame]
            constructor
            · rintro (h | h)
              · exact Or.inl h
              · exact Or.inr (Or.inr h)
            · rintro (h | h | h)
              · exact Or.inl h
              · obtain ⟨r2, hr2, hr2ne, -⟩ := h
                injection hr2 with hr3
                exact absurd (hr ▸ hr3.symm) hr2ne
              · exact Or.inr h
          · simp only [hsame, hr, if_false]
            rw [ih]
            rw [mem_nbrs_addNbr, mem_nbrs_addNbr]
            simp only [List.mem_cons, exists_eq_or_imp, hsame]
            constructor
            · rintro (((h | h) | h) | h)
              · exact Or.inl h
              · exact Or.inr (Or.inl ⟨r, rfl, hr, Or.inl h⟩)
              · exact Or.inr (Or.inl ⟨r, rfl, hr, Or.inr h⟩)
              · exact Or.inr (Or.inr h)
            · rintro (h | ⟨r2, hr2, hr2ne, hc⟩ | h)
              · exact Or.inl (Or.inl (Or.inl h))
              · injection hr2 with hr3
                subst hr3
                rcases hc with hc | hc
                · exact Or.inl (Or.inl (Or.inr hc))
                · exact Or.inl (Or.inr hc)
              · exact Or.inr h

lemma mem_graphKeys_buildGraph_fold :
    ∀ (cols : List Column) (g0 : Graph) (x : String),
      x ∈ graphKeys (List.foldl
        (fun g col =>
          match col.same_valid_value_row_as_column with
          | none => g
          | some r => if r = "" then g
              else addNbr (addNbr g col.name r) r col.name) g0 cols) ↔
      x ∈ graphKeys g0 ∨ ∃ col ∈ cols, ∃ r,
        col.same_valid_value_row_as_column = some r ∧ r ≠ "" ∧
        (x = col.name ∨ x = r) := by
  intro cols
  induction cols with
  | nil => intro g0 x; simp
  | cons col rest ih =>
      intro g0 x
      rw [List.foldl_cons]
      cases hsame : col.same_valid_value_row_as_column with
      | none =>
          simp only [hsame]
          rw [ih]
          simp only [List.mem_cons, exists_eq_or_imp, hsame]
          constructor
          · rintro (h | h)
            · exact Or.inl h
            · exact Or.inr (Or.inr h)
          · rintro (h | h | h)
            · exact Or.inl h
            · obtain ⟨r, hr, -⟩ := h; cases hr
            · exact Or.inr h
      | some r =>
          by_cases hr : r = ""
          · simp only [hsame, hr, if_true]
            rw [ih]
            simp only [List.mem_cons, exists_eq_or_imp, hsame]
            constructor
            · rintro (h | h)
              · exact Or.inl h
              · exact Or.inr (Or.inr h)
            · rintro (h | h | h)
              · exact Or.inl h
              · obtain ⟨r2, hr2, hr2ne, -⟩ := h
                injection hr2 with hr3
                exact absurd (hr ▸ hr3.symm) hr2ne
              · exact Or.inr h
          · simp only [hsame, hr, if_false]
            rw [ih]
            rw [mem_graphKeys_addNbr, mem_graphKeys_addNbr]
            simp only [List.mem_cons, exists_eq_or_imp, hsame]
            constructor
            · rintro (((h | h) | h) | h)
              · exact Or.inl h
              · exact Or.inr (Or.inl ⟨r, rfl, hr, Or.inl h⟩)
              · exact Or.inr (Or.inl ⟨r, rfl, hr, Or.inr h⟩)
              · exact Or.inr (Or.inr h)
            · rintro (h | ⟨r2, hr2, hr2ne, hc⟩ | h)
              · exact Or.inl (Or.inl (Or.inl h))
              · injection hr2 with hr3
                subst hr3
                rcases hc with hc | hc
                · exact Or.inl (Or.inl (Or.inr hc))
                · exact Or.inl (Or.inr hc)
              · exact Or.inr h

lemma mem_nbrs_buildGraph (cols : List Column) (x y : String) :
    y ∈ nbrs (buildGraph cols) x ↔ ∃ col ∈ cols, ∃ r,
      col.same_valid_value_row_as_column = some r ∧ r ≠ "" ∧
      ((x = col.name ∧ y = r) ∨ (x = r ∧ y = col.name)) := by
  unfold buildGraph
  rw [mem_nbrs_buildGraph_fold]
  simp [nbrs]

lemma mem_graphKeys_buildGraph (cols : List Column) (x : String) :
    x ∈ graphKeys (buildGraph cols) ↔ ∃ col ∈ cols, ∃ r,
      col.same_valid_value_row_as_column = some r ∧ r ≠ "" ∧
      (x = col.name ∨ x = r) := by
  unfold buildGraph
  rw [mem_graphKeys_buildGraph_fold]
  simp [graphKeys]

lemma nbrs_buildGraph_symm (cols : List Column) (x y : String)
    (h : y ∈ nbrs (buildGraph cols) x) : x ∈ nbrs (buildGraph cols) y := by
  rw [mem_nbrs_buildGraph] at h ⊢
  obtain ⟨col, hcol, r, hsame, hne, hc⟩ := h
  exact ⟨col, hcol, r, hsame, hne, hc.symm.imp (fun h2 => ⟨h2.2, h2.1⟩)
    (fun h2 => ⟨h2.2, h2.1⟩)⟩

lemma nbrs_buildGraph_closed (cols : List Column) (x y : String)
    (h : y ∈ nbrs (buildGraph cols) x) :
    x ∈ graphKeys (buildGraph cols) ∧ y ∈ graphKeys (buildGraph cols) := by
  rw [mem_nbrs_buildGraph] at h
  obtain ⟨col, hcol, r, hsame, hne, hc⟩ := h
  constructor
  · rw [mem_graphKeys_buildGraph]
    refine ⟨col, hcol, r, hsame, hne, ?_⟩
    rcases hc with h2 | h2
    · exact Or.inl h2.1
    · exact Or.inr h2.1
  · rw [mem_graphKeys_buildGraph]
    refine ⟨col, hcol, r, hsame, hne, ?_⟩
    rcases hc with h2 | h2
    · exact Or.inr h2.2
    · exact Or.inl h2.2

/-! ### Depth-first search: structure of the visited set and component -/

lemma dfsList_nil (step : String → List String × List String →
    List String × List String) (st : List String × List String) :
    dfsList step [] st = st := rfl

lemma dfsList_cons (step : String → List String × List String →
    List String × List String) (nb : String) (rest : List String)
    (st : List String × List String) :
    dfsList step (nb :: rest) st =
      dfsList step rest (if nb ∈ st.1 then st else step nb st) := rfl

lemma dfsAux_zero (g : Graph) (node : String)
    (st : List String × List String) : dfsAux g 0 node st = st := rfl

lemma dfsAux_succ (g : Graph) (f : Nat) (node : String)
    (st : List String × List String) :
    dfsAux g (f + 1) node st =
      dfsList (fun nb st2 => dfsAux g f nb st2) (nbrs g node)
        (node :: st.1, st.2 ++ [node]) := rfl

lemma dfsList_delta (step : String → List String × List String →
      List String × List String)
    (hstep : ∀ nb st, nb ∉ st.1 → ∃ δ,
      step nb st = (δ.reverse ++ st.1, st.2 ++ δ) ∧ δ.Nodup ∧
      ∀ x ∈ δ, x ∉ st.1) :
    ∀ (l : List String) (st : List String × List String),
      ∃ δ, dfsList step l st = (δ.reverse ++ st.1, st.2 ++ δ) ∧ δ.Nodup ∧
        ∀ x ∈ δ, x ∉ st.1 := by
  intro l
  induction l with
  | nil => intro st; exact ⟨[], by simp [dfsList_nil], by simp, by simp⟩
  | cons nb rest ih =>
      intro st
      rw [dfsList_cons]
      by_cases hnb : nb ∈ st.1
      · rw [if_pos hnb]; exact ih st
      · rw [if_neg hnb]
        obtain ⟨δ1, hs, hnd1, hf1⟩ := hstep nb st hnb
        obtain ⟨δ2, hs2, hnd2, hf2⟩ := ih (step nb st)
        have hst1 : (step nb st).1 = δ1.reverse ++ st.1 := by rw [hs]
        have hst2 : (step nb st).2 = st.2 ++ δ1 := by rw [hs]
        refine ⟨δ1 ++ δ2, ?_, ?_, ?_⟩
        · rw [hs2, hst1, hst2]
          simp [List.reverse_append, List.append_assoc]
        · rw [List.nodup_append]
          refine ⟨hnd1, hnd2, ?_⟩
          intro a ha1 ha2
          have := hf2 a ha2
          rw [hst1] at this
          exact this (List.mem_append.mpr (Or.inl (List.mem_reverse.mpr ha1)))
        · intro x hx
          rcases List.mem_append.mp hx with hx1 | hx2
          · exact hf1 x hx1
          · have := hf2 x hx2
            rw [hst1] at this
            exact fun hc => this (List.mem_append.mpr (Or.inr hc))

lemma dfsAux_delta (g : Graph) :
    ∀ (fuel : Nat) (node : String) (st : List String × List String),
      node ∉ st.1 →
      ∃ δ, dfsAux g fuel node st = (δ.reverse ++ st.1, st.2 ++ δ) ∧
        δ.Nodup ∧ ∀ x ∈ δ, x ∉ st.1 := by
  intro fuel
  induction fuel with
  | zero =>
      intro node st _
      exact ⟨[], by simp [dfsAux_zero], by simp, by simp⟩
  | succ f ih =>
      intro node st hn
      rw [dfsAux_succ]
      obtain ⟨δ, hs, hnd, hf⟩ := dfsList_delta (fun nb st2 => dfsAux g f nb st2)
        (fun nb st2 h2 => ih nb st2 h2) (nbrs g node)
        (node :: st.1, st.2 ++ [node])
      refine ⟨node :: δ, ?_, ?_, ?_⟩
      · rw [hs]
        simp [List.append_assoc]
      · rw [List.nodup_cons]
        exact ⟨fun hc => hf node hc (List.mem_cons_self _ _), hnd⟩
      · intro x hx
        rcases List.mem_cons.mp hx with rfl | hx2
        · exact hn
        · exact fun hc => hf x hx2 (List.mem_cons_of_mem _ hc)

lemma cardFree_pos (ks v : List String) (x : String) (hx : x ∈ ks)
    (hv : x ∉ v) : 0 < cardFree ks v := by
  apply Finset.card_pos.mpr
  exact ⟨x, Finset.mem_filter.mpr ⟨List.mem_toFinset.mpr hx, hv⟩⟩

lemma cardFree_anti (ks : List String) {v v' : List String}
    (h : ∀ x ∈ v, x ∈ v') : cardFree ks v' ≤ cardFree ks v := by
  apply Finset.card_le_card
  intro a ha
  obtain ⟨h1, h2⟩ := Finset.mem_filter.mp ha
  exact Finset.mem_filter.mpr ⟨h1, fun hc => h2 (h a hc)⟩

lemma cardFree_cons_lt (ks v : List String) (x : String) (hx : x ∈ ks)
    (hv : x ∉ v) : cardFree ks (x :: v) < cardFree ks v := by
  apply Finset.card_lt_card
  have hsub : (ks.toFinset.filter (fun a => a ∉ x :: v)) ⊆
      (ks.toFinset.filter (fun a => a ∉ v)) := by
    intro a ha
    obtain ⟨h1, h2⟩ := Finset.mem_filter.mp ha
    exact Finset.mem_filter.mpr ⟨h1, fun hc => h2 (List.mem_cons_of_mem _ hc)⟩
  rw [Finset.ssubset_iff_of_subset hsub]
  refine ⟨x, Finset.mem_filter.mpr ⟨List.mem_toFinset.mpr hx, hv⟩, ?_⟩
  intro hc
  exact (Finset.mem_filter.mp hc).2 (List.mem_cons_self _ _)

lemma cardFree_le_length (ks v : List String) : cardFree ks v ≤ ks.length :=
  le_trans (Finset.card_le_card (Finset.filter_subset _ _))
    (le_trans ks.toFinset_card_le (le_refl _))

lemma dfsListA_delta (g : Graph) (f : Nat) (l : List String)
    (st : List String × List String) :
    ∃ δ, dfsList (fun nb st2 => dfsAux g f nb st2) l st =
      (δ.reverse ++ st.1, st.2 ++ δ) ∧ δ.Nodup ∧ ∀ x ∈ δ, x ∉ st.1 :=
  dfsList_delta _ (fun nb st2 h2 => dfsAux_delta g f nb st2 h2) l st

lemma dfsListA_mono (g : Graph) (f : Nat) (l : List String)
    (st : List String × List String) :
    ∀ x ∈ st.1, x ∈ (dfsList (fun nb st2 => dfsAux g f nb st2) l st).1 := by
  obtain ⟨δ, hs, _, _⟩ := dfsListA_delta g f l st
  intro x hx
  rw [hs]
  exact List.mem_append.mpr (Or.inr hx)

lemma dfsList_closure_aux (g : Graph) (f : Nat)
    (hclosed : ∀ x y, y ∈ nbrs g x → y ∈ graphKeys g)
    (ih : ∀ node st, node ∉ st.1 → node ∈ graphKeys g →
      cardFree (graphKeys g) st.1 ≤ f →
      (∀ x ∈ st.1, x ∈ (dfsAux g f node st).1) ∧
      node ∈ (dfsAux g f node st).1 ∧
      (∀ y ∈ nbrs g node, y ∈ (dfsAux g f node st).1) ∧
      (∀ x ∈ (dfsAux g f node st).1, x ∉ st.1 →
        (∀ y ∈ nbrs g x, y ∈ (dfsAux g f node st).1) ∧ x ∈ graphKeys g)) :
    ∀ (l : List String) (st : List String × List String),
      (∀ nb ∈ l, nb ∈ graphKeys g) →
      cardFree (graphKeys g) st.1 ≤ f →
      (∀ x ∈ st.1, x ∈ (dfsList (fun nb st2 => dfsAux g f nb st2) l st).1) ∧
      (∀ nb ∈ l, nb ∈ (dfsList (fun nb st2 => dfsAux g f nb st2) l st).1) ∧
      (∀ x ∈ (dfsList (fun nb st2 => dfsAux g f nb st2) l st).1, x ∉ st.1 →
        (∀ y ∈ nbrs g x,
          y ∈ (dfsList (fun nb st2 => dfsAux g f nb st2) l st).1) ∧
        x ∈ graphKeys g) := by
  intro l
  induction l with
  | nil =>
      intro st _ _
      refine ⟨fun x hx => hx, fun nb hnb => absurd hnb (List.not_mem_nil _),
        fun x hx hx2 => absurd hx hx2⟩
  | cons nb rest ihl =>
      intro st hl hcf
      rw [dfsList_cons]
      by_cases hnb : nb ∈ st.1
      · rw [if_pos hnb]
        obtain ⟨hm, hc, hcl⟩ := ihl st (fun n hn => hl n (List.mem_cons_of_mem _ hn)) hcf
        exact ⟨hm, fun n hn => by
          rcases List.mem_cons.mp hn with rfl | hn2
          · exact hm n hnb
          · exact hc n hn2, hcl⟩
      · rw [if_neg hnb]
        have hnbk : nb ∈ graphKeys g := hl nb (List.mem_cons_self _ _)
        obtain ⟨ih1, ih2, ih3, ih4⟩ := ih nb st hnb hnbk hcf
        have hcf2 : cardFree (graphKeys g) (dfsAux g f nb st).1 ≤ f :=
          le_trans (cardFree_anti _ ih1) hcf
        obtain ⟨hm, hc, hcl⟩ := ihl (dfsAux g f nb st)
          (fun n hn => hl n (List.mem_cons_of_mem _ hn)) hcf2
        refine ⟨fun x hx => hm x (ih1 x hx), ?_, ?_⟩
        · intro n hn
          rcases List.mem_cons.mp hn with rfl | hn2
          · exact hm n ih2
          · exact hc n hn2
        · intro x hx hxold
          by_cases hxmid : x ∈ (dfsAux g f nb st).1
          · obtain ⟨hnx, hxk⟩ := ih4 x hxmid hxold
            exact ⟨fun y hy => hm y (hnx y hy), hxk⟩
          · obtain ⟨hnx, hxk⟩ := hcl x hx hxmid
            exact ⟨hnx, hxk⟩

lemma dfsAux_closure (g : Graph)
    (hclosed : ∀ x y, y ∈ nbrs g x → y ∈ graphKeys g) :
    ∀ (fuel : Nat) (node : String) (st : List String × List String),
      node ∉ st.1 → node ∈ graphKeys g →
      cardFree (graphKeys g) st.1 ≤ fuel →
      (∀ x ∈ st.1, x ∈ (dfsAux g fuel node st).1) ∧
      node ∈ (dfsAux g fuel node st).1 ∧
      (∀ y ∈ nbrs g node, y ∈ (dfsAux g fuel node st).1) ∧
      (∀ x ∈ (dfsAux g fuel node st).1, x ∉ st.1 →
        (∀ y ∈ nbrs g x, y ∈ (dfsAux g fuel node st).1) ∧
        x ∈ graphKeys g) := by
  intro fuel
  induction fuel with
  | zero =>
      intro node st hn hk hcf
      exact absurd hcf (Nat.not_le_of_lt (cardFree_pos _ _ node hk hn))
  | succ f ihf =>
      intro node st hn hk hcf
      rw [dfsAux_succ]
      have hcf2 : cardFree (graphKeys g) (node :: st.1, st.2 ++ [node]).1 ≤ f := by
        have := cardFree_cons_lt (graphKeys g) st.1 node hk hn
        exact Nat.lt_succ_iff.mp (Nat.lt_of_lt_of_le this hcf)
      obtain ⟨hm, hc, hcl⟩ := dfsList_closure_aux g f hclosed ihf
        (nbrs g node) (node :: st.1, st.2 ++ [node])
        (fun nb hnb => hclosed node nb hnb) hcf2
      refine ⟨?_, ?_, ?_, ?_⟩
      · intro x hx
        exact hm x (List.mem_cons_of_mem _ hx)
      · exact hm node (List.mem_cons_self _ _)
      · exact hc
      · intro x hx hxold
        by_cases hxn : x = node
        · subst hxn
          exact ⟨hc, hk⟩
        · have hxnot : x ∉ (node :: st.1, st.2 ++ [node]).1 := by
            simp only [List.mem_cons]
            exact fun hcc => hcc.elim hxn hxold
          exact hcl x hx hxnot

lemma lookup_map_pair_self (comp : List String) (gid : Nat) (n : String)
    (h : n ∈ comp) :
    List.lookup n (comp.map (fun m => (m, gid))) = some gid := by
  induction comp with
  | nil => exact absurd h (List.not_mem_nil _)
  | cons m comp ih =>
      rw [List.map_cons, List.lookup_cons]
      cases hb : (n == m) with
      | true => rfl
      | false =>
          rcases List.mem_cons.mp h with rfl | h2
          · rw [beq_self_eq_true] at hb; cases hb
          · exact ih h2

lemma bdgStep_mem (g : Graph) (flen : Nat) (st : GroupState) (node : String)
    (h : node ∈ st.visited) : bdgStep g flen st node = st := by
  simp [bdgStep, h]

lemma bdgStep_not_mem (g : Graph) (flen : Nat) (st : GroupState)
    (node : String) (h : node ∉ st.visited) :
    bdgStep g flen st node =
      { visited := (dfsAux g flen node (st.visited, [])).1,
        col_to_group := st.col_to_group ++
          (dfsAux g flen node (st.visited, [])).2.map
            (fun n => (n, st.group_id)),
        group_id := st.group_id + 1,
        groups := st.groups ++
          [(st.group_id, (dfsAux g flen node (st.visited, [])).2)] } := by
  simp [bdgStep, h]

lemma bdgStep_inv (g : Graph)
    (hclosed : ∀ x y, y ∈ nbrs g x → y ∈ graphKeys g)
    (hsym : ∀ x y, y ∈ nbrs g x → x ∈ nbrs g y)
    (node : String) (hnode : node ∈ graphKeys g)
    (st : GroupState) (h : bdgInv g st) :
    bdgInv g (bdgStep g (graphKeys g).length st node) := by
  obtain ⟨j1, j8, j2, j3, j4, j6⟩ := h
  by_cases hv : node ∈ st.visited
  · rw [bdgStep_mem g _ st node hv]
    exact ⟨j1, j8, j2, j3, j4, j6⟩
  · rw [bdgStep_not_mem g _ st node hv]
    obtain ⟨δ, hres, hnd, hfr⟩ :=
      dfsAux_delta g (graphKeys g).length node (st.visited, []) hv
    obtain ⟨hm, hnode1, hnb, hcl⟩ :=
      dfsAux_closure g hclosed (graphKeys g).length node (st.visited, [])
        hv hnode (cardFree_le_length _ _)
    have hres1 : (dfsAux g (graphKeys g).length node (st.visited, [])).1 =
        δ.reverse ++ st.visited := by rw [hres]
    have hres2 : (dfsAux g (graphKeys g).length node (st.visited, [])).2 =
        δ := by rw [hres]; simp
    have hmemres : ∀ x,
        x ∈ (dfsAux g (graphKeys g).length node (st.visited, [])).1 ↔
        x ∈ δ ∨ x ∈ st.visited := by
      intro x
      rw [hres1, List.mem_append, List.mem_reverse]
    refine ⟨?_, ?_, ?_, ?_, ?_, ?_⟩
    · intro x hx y hy
      by_cases hxv : x ∈ st.visited
      · exact hm y (j1 x hxv y hy)
      · exact (hcl x hx hxv).1 y hy
    · intro x hx
      by_cases hxv : x ∈ st.visited
      · exact j8 x hxv
      · exact (hcl x hx hxv).2
    · intro x y hy hx
      by_cases hxv : x ∈ st.visited
      · obtain ⟨gid, comp, hg, hxc, hyc⟩ := j2 x y hy hxv
        exact ⟨gid, comp, lookup_append_some _ _ _ _ hg, hxc, hyc⟩
      · have hxδ : x ∈ δ := ((hmemres x).mp hx).resolve_right hxv
        have hyres : y ∈ (dfsAux g (graphKeys g).length node
            (st.visited, [])).1 := (hcl x hx hxv).1 y hy
        have hyv : y ∉ st.visited := by
          intro hyc
          exact hxv (j1 y hyc x (hsym x y hy))
        have hyδ : y ∈ δ := ((hmemres y).mp hyres).resolve_right hyv
        have hlkn : List.lookup st.group_id st.groups = none := by
          cases hlk : List.lookup st.group_id st.groups with
          | none => rfl
          | some comp0 =>
              exact absurd (j6 _ (lookup_some_mem _ _ _ hlk))
                (lt_irrefl _)
        refine ⟨st.group_id,
          (dfsAux g (graphKeys g).length node (st.visited, [])).2, ?_, ?_, ?_⟩
        · rw [lookup_append_none _ _ _ hlkn]
          simp [List.lookup]
        · rw [hres2]; exact hxδ
        · rw [hres2]; exact hyδ
    · intro gid0 comp hgc n hn
      cases hlk : List.lookup gid0 st.groups with
      | some comp0 =>
          rw [lookup_append_some _ _ _ _ hlk] at hgc
          cases hgc
          exact lookup_append_some _ _ _ _ (j3 gid0 comp hlk n hn)
      | none =>
          rw [lookup_append_none _ _ _ hlk] at hgc
          simp only [List.lookup] at hgc
          cases hb : (gid0 == st.group_id) with
          | false => rw [hb] at hgc; cases hgc
          | true =>
              rw [hb] at hgc
              have hgid : gid0 = st.group_id := by
                rwa [beq_iff_eq] at hb
              cases hgc
              have hnδ : n ∈ δ := by rw [hres2] at hn; exact hn
              have hlc : List.lookup n st.col_to_group = none := by
                cases hlc2 : List.lookup n st.col_to_group with
                | none => rfl
                | some g1 => exact absurd (j4 n g1 hlc2) (hfr n hnδ)
              rw [hgid, lookup_append_none _ _ _ hlc, hres2]
              exact lookup_map_pair_self δ st.group_id n hnδ
    · intro n gid0 hl
      cases hlc : List.lookup n st.col_to_group with
      | some g1 =>
          rw [lookup_append_some _ _ _ _ hlc] at hl
          cases hl
          exact hm n (j4 n gid0 hlc)
      | none =>
          rw [lookup_append_none _ _ _ hlc] at hl
          obtain ⟨_, hnc⟩ := lookup_map_const_pair _ _ _ _ hl
          rw [hres2] at hnc
          rw [hmemres n]
          exact Or.inl hnc
    · intro p hp
      rcases List.mem_append.mp hp with hp1 | hp2
      · exact Nat.lt_succ_of_lt (j6 p hp1)
      · rw [List.mem_singleton] at hp2
        subst hp2
        exact Nat.lt_succ_self _

lemma bdg_fold_inv_all (g : Graph)
    (hclosed : ∀ x y, y ∈ nbrs g x → y ∈ graphKeys g)
    (hsym : ∀ x y, y ∈ nbrs g x → x ∈ nbrs g y) :
    ∀ (l : List String) (st : GroupState), (∀ n ∈ l, n ∈ graphKeys g) →
      bdgInv g st →
      bdgInv g (l.foldl (bdgStep g (graphKeys g).length) st) := by
  intro l
  induction l with
  | nil => intro st _ h; exact h
  | cons node rest ih =>
      intro st hl h
      rw [List.foldl_cons]
      exact ih _ (fun n hn => hl n (List.mem_cons_of_mem _ hn))
        (bdgStep_inv g hclosed hsym node (hl node (List.mem_cons_self _ _))
          st h)

lemma bdg_visited_mono_step (g : Graph) (flen : Nat) (st : GroupState)
    (node : String) :
    ∀ x ∈ st.visited, x ∈ (bdgStep g flen st node).visited := by
  intro x hx
  by_cases hv : node ∈ st.visited
  · rw [bdgStep_mem g flen st node hv]; exact hx
  · rw [bdgStep_not_mem g flen st node hv]
    obtain ⟨δ, hres, _, _⟩ := dfsAux_delta g flen node (st.visited, []) hv
    show x ∈ (dfsAux g flen node (st.visited, [])).1
    rw [hres]
    exact List.mem_append.mpr (Or.inr hx)

lemma bdg_fold_visited_mono (g : Graph) (flen : Nat) :
    ∀ (l : List String) (st : GroupState),
      ∀ x ∈ st.visited, x ∈ (l.foldl (bdgStep g flen) st).visited := by
  intro l
  induction l with
  | nil => intro st x hx; exact hx
  | cons node rest ih =>
      intro st x hx
      rw [List.foldl_cons]
      exact ih _ x (bdg_visited_mono_step g flen st node x hx)

lemma bdg_fold_covers (g : Graph)
    (hclosed : ∀ x y, y ∈ nbrs g x → y ∈ graphKeys g) :
    ∀ (l : List String) (st : GroupState), (∀ n ∈ l, n ∈ graphKeys g) →
      ∀ n ∈ l, n ∈ (l.foldl (bdgStep g (graphKeys g).length) st).visited := by
  intro l
  induction l with
  | nil => intro st _ n hn; exact absurd hn (List.not_mem_nil _)
  | cons node rest ih =>
      intro st hl n hn
      rw [List.foldl_cons]
      rcases List.mem_cons.mp hn with rfl | hn2
      · apply bdg_fold_visited_mono
        by_cases hv : n ∈ st.visited
        · rw [bdgStep_mem g _ st n hv]; exact hv
        · rw [bdgStep_not_mem g _ st n hv]
          obtain ⟨_, hmem, _, _⟩ :=
            dfsAux_closure g hclosed (graphKeys g).length n (st.visited, [])
              hv (hl n (List.mem_cons_self _ _)) (cardFree_le_length _ _)
          exact hmem
      · exact ih _ (fun m hm => hl m (List.mem_cons_of_mem _ hm)) n hn2

lemma bdg_init_inv (g : Graph) : bdgInv g ⟨[], [], 0, []⟩ :=
  ⟨fun _ hx => absurd hx (List.not_mem_nil _),
   fun _ hx => absurd hx (List.not_mem_nil _),
   fun _ _ _ hx => absurd hx (List.not_mem_nil _),
   fun _ _ hgc => by simp [List.lookup] at hgc,
   fun _ _ hl => by simp [List.lookup] at hl,
   fun _ hp => absurd hp (List.not_mem_nil _)⟩

lemma bdg_final_inv (cols : List Column) :
    bdgInv (buildGraph cols)
      (((buildGraph cols).map (fun p => p.1)).foldl
        (bdgStep (buildGraph cols)
          ((buildGraph cols).map (fun p => p.1)).length)
        ⟨[], [], 0, []⟩) :=
  bdg_fold_inv_all (buildGraph cols)
    (fun x y h => (nbrs_buildGraph_closed cols x y h).2)
    (fun x y h => nbrs_buildGraph_symm cols x y h)
    (graphKeys (buildGraph cols)) ⟨[], [], 0, []⟩
    (fun _ hn => hn) (bdg_init_inv _)

lemma bdg_edge_same_group (cols : List Column) (x y : String)
    (h : y ∈ nbrs (buildGraph cols) x) :
    ∃ gid, List.lookup x (build_dependency_groups cols).1 = some gid ∧
      List.lookup y (build_dependency_groups cols).1 = some gid := by
  have hinv := bdg_final_inv cols
  obtain ⟨j1, j8, j2, j3, j4, j6⟩ := hinv
  have hx : x ∈ (((buildGraph cols).map (fun p => p.1)).foldl
      (bdgStep (buildGraph cols)
        ((buildGraph cols).map (fun p => p.1)).length) ⟨[], [], 0, []⟩).visited :=
    bdg_fold_covers (buildGraph cols)
      (fun a b hb => (nbrs_buildGraph_closed cols a b hb).2)
      (graphKeys (buildGraph cols)) ⟨[], [], 0, []⟩ (fun _ hn => hn)
      x (nbrs_buildGraph_closed cols x y h).1
  obtain ⟨gid, comp, hg, hxc, hyc⟩ := j2 x y h hx
  exact ⟨gid, j3 gid comp hg x hxc, j3 gid comp hg y hyc⟩

lemma bdg_nokey_none (cols : List Column) (z : String)
    (hz : z ∉ graphKeys (buildGraph cols)) :
    List.lookup z (build_dependency_groups cols).1 = none := by
  have hinv := bdg_final_inv cols
  obtain ⟨j1, j8, j2, j3, j4, j6⟩ := hinv
  cases hlk : List.lookup z (build_dependency_groups cols).1 with
  | none => rfl
  | some gid => exact absurd (j8 z (j4 z gid hlk)) hz

/-- **C8.** Dependency grouping computes the connected components of the
undirected link relation, so grouping is symmetric and transitive: for any
column list (any declaration order), if column `a` declares a truthy link
to `b.name` and column `b` declares a truthy link to `c.name`, then
`a.name`, `b.name` and `c.name` are all mapped to one common group id by
`build_dependency_groups`; and a column name that is not an endpoint of
any truthy declared link is mapped to no group. -/
theorem c8_grouping_is_connected_components (cols : List Column)
    (a b c : Column) (ha : a ∈ cols) (hb : b ∈ cols)
    (hab : a.same_valid_value_row_as_column = some b.name)
    (hab2 : b.name ≠ "")
    (hbc : b.same_valid_value_row_as_column = some c.name)
    (hbc2 : c.name ≠ "") :
    (∃ gid, List.lookup a.name (build_dependency_groups cols).1 = some gid ∧
      List.lookup b.name (build_dependency_groups cols).1 = some gid ∧
      List.lookup c.name (build_dependency_groups cols).1 = some gid) ∧
    (∀ z : String,
      (∀ col ∈ cols, ∀ r, col.same_valid_value_row_as_column = some r →
        r ≠ "" → col.name ≠ z ∧ r ≠ z) →
      List.lookup z (build_dependency_groups cols).1 = none) := by
  constructor
  · have hedge1 : b.name ∈ nbrs (buildGraph cols) a.name :=
      (mem_nbrs_buildGraph cols a.name b.name).mpr
        ⟨a, ha, b.name, hab, hab2, Or.inl ⟨rfl, rfl⟩⟩
    have hedge2 : c.name ∈ nbrs (buildGraph cols) b.name :=
      (mem_nbrs_buildGraph cols b.name c.name).mpr
        ⟨b, hb, c.name, hbc, hbc2, Or.inl ⟨rfl, rfl⟩⟩
    obtain ⟨gid1, hA, hB1⟩ := bdg_edge_same_group cols a.name b.name hedge1
    obtain ⟨gid2, hB2, hC⟩ := bdg_edge_same_group cols b.name c.name hedge2
    rw [hB1] at hB2
    cases hB2
    exact ⟨gid1, hA, hB1, hC⟩
  · intro z hz
    apply bdg_nokey_none
    rw [mem_graphKeys_buildGraph]
    rintro ⟨col, hcol, r, hsame, hne, hzor⟩
    obtain ⟨h1, h2⟩ := hz col hcol r hsame hne
    rcases hzor with rfl | rfl
    · exact h1 rfl
    · exact h2 rfl

/-- Witness for C8 at a concrete three-column chain `a → b → c` declared out
of component order, plus a loner column `d`. -/
theorem c8_witness :
    (∃ gid,
      List.lookup "a" (build_dependency_groups
        [{ name := "a", position := 1,
           same_valid_value_row_as_column := some "b" },
         { name := "b", position := 2,
           same_valid_value_row_as_column := some "c" },
         { name := "c", position := 3 }, { name := "d", position := 4 }]).1 =
        some gid ∧
      List.lookup "b" (build_dependency_groups
        [{ name := "a", position := 1,
           same_valid_value_row_as_column := some "b" },
         { name := "b", position := 2,
           same_valid_value_row_as_column := some "c" },
         { name := "c", position := 3 }, { name := "d", position := 4 }]).1 =
        some gid ∧
      List.lookup "c" (build_dependency_groups
        [{ name := "a", position := 1,
           same_valid_value_row_as_column := some "b" },
         { name := "b", position := 2,
           same_valid_value_row_as_column := some "c" },
         { name := "c", position := 3 }, { name := "d", position := 4 }]).1 =
        some gid) ∧
    List.lookup "d" (build_dependency_groups
      [{ name := "a", position := 1,
         same_valid_value_row_as_column := some "b" },
       { name := "b", position := 2,
         same_valid_value_row_as_column := some "c" },
       { name := "c", position := 3 }, { name := "d", position := 4 }]).1 =
      none := by
  have h := c8_grouping_is_connected_components
    [{ name := "a", position := 1,
       same_valid_value_row_as_column := some "b" },
     { name := "b", position := 2,
       same_valid_value_row_as_column := some "c" },
     { name := "c", position := 3 }, { name := "d", position := 4 }]
    { name := "a", position := 1, same_valid_value_row_as_column := some "b" }
    { name := "b", position := 2, same_valid_value_row_as_column := some "c" }
    { name := "c", position := 3 }
    (List.Mem.head _) (List.Mem.tail _ (List.Mem.head _))
    rfl (by decide) rfl (by decide)
  refine ⟨h.1, h.2 "d" ?_⟩
  intro col hcol r hr hne
  fin_cases hcol
  · cases hr; exact ⟨by decide, by decide⟩
  · cases hr; exact ⟨by decide, by decide⟩
  · cases hr
  · cases hr

/-! ### C1: provenance of group-member values -/

lemma refRetryLoop_valid (rand : Nat → Nat) (tbl : List (List String))
    (idx : Nat) (pat : Option Pattern) (fuel : Nat) (value : String)
    (row : List String) (retries k : Nat)
    (h : validate_value value pat = true) :
    refRetryLoop rand tbl idx pat fuel value row retries k =
      .ok (value, row, retries, k) := by
  unfold refRetryLoop
  cases fuel <;> simp [h]

lemma processMembers_lookup_frozen (rand : Nat → Nat)
    (cfgByName : String → Option Column) (tbl : List (List String)) :
    ∀ (names : List String) (row : Row) (cr : List String) (k : Nat)
      (row2 : Row) (cr2 : List String) (k2 : Nat),
      processMembers rand cfgByName tbl names row cr k = .ok (row2, cr2, k2) →
      ∀ n, n ∉ names → rowLookup row2 n = rowLookup row n := by
  intro names
  induction names with
  | nil =>
      intro row cr k row2 cr2 k2 hpm n _
      simp only [processMembers, Except.ok.injEq, Prod.mk.injEq] at hpm
      rw [← hpm.1]
  | cons name rest ih =>
      intro row cr k row2 cr2 k2 hpm n hn
      obtain ⟨cfg, colIndex, value, v, crNew, ret, k3, hc, hi, hcell, hloop,
        hret, hrest⟩ := processMembers_cons_elim rand cfgByName tbl name rest
          row cr k row2 cr2 k2 hpm
      have hn1 : n ≠ name := fun hc2 => hn (hc2 ▸ List.mem_cons_self _ _)
      have hn2 : n ∉ rest := fun hc2 => hn (List.mem_cons_of_mem _ hc2)
      rw [ih _ _ _ _ _ _ hrest n hn2, rowLookup_rowInsert, if_neg hn1]

lemma pm_nopattern (rand : Nat → Nat) (cfgByName : String → Option Column)
    (validRows : List (List String)) :
    ∀ (names : List String) (row : Row) (chosenRow : List String) (k : Nat)
      (row2 : Row) (cr2 : List String) (k2 : Nat),
      (∀ name ∈ names, ∀ cfg, cfgByName name = some cfg →
        cfg.validation_regex = none) →
      names.Nodup →
      processMembers rand cfgByName validRows names row chosenRow k =
        .ok (row2, cr2, k2) →
      cr2 = chosenRow ∧ k2 = k ∧
      ∀ name ∈ names, ∃ cfg idx v,
        cfgByName name = some cfg ∧
        cfg.valid_values_csv_column_index = some idx ∧
        cellAt chosenRow idx = .ok v ∧
        rowLookup row2 name = some (some v) := by
  intro names
  induction names with
  | nil =>
      intro row chosenRow k row2 cr2 k2 _ _ hpm
      simp only [processMembers, Except.ok.injEq, Prod.mk.injEq] at hpm
      exact ⟨hpm.2.1.symm, hpm.2.2.symm,
        fun name hname => absurd hname (List.not_mem_nil _)⟩
  | cons name rest ih =>
      intro row chosenRow k row2 cr2 k2 hnp hnd hpm
      obtain ⟨cfg, colIndex, value, v, crNew, ret, k3, hc, hi, hcell, hloop,
        hret, hrest⟩ := processMembers_cons_elim rand cfgByName validRows name
          rest row chosenRow k row2 cr2 k2 hpm
      have hpat : cfg.validation_regex = none :=
        hnp name (List.mem_cons_self _ _) cfg hc
      rw [hpat, refRetryLoop_valid rand validRows colIndex none 10 value
        chosenRow 0 k rfl] at hloop
      simp only [Except.ok.injEq, Prod.mk.injEq] at hloop
      obtain ⟨hv, hcr, _, hk3⟩ := hloop
      subst hv
      subst hcr
      subst hk3
      obtain ⟨hname_rest, hnd_rest⟩ := List.nodup_cons.mp hnd
      obtain ⟨hcr2, hk2, hmem⟩ := ih (rowInsert row name (some value))
        chosenRow k row2 cr2 k2
        (fun n hn cfg2 hcfg2 => hnp n (List.mem_cons_of_mem _ hn) cfg2 hcfg2)
        hnd_rest hrest
      refine ⟨hcr2, hk2, ?_⟩
      intro n hn
      rcases List.mem_cons.mp hn with rfl | hn2
      · refine ⟨cfg, colIndex, value, hc, hi, hcell, ?_⟩
        rw [processMembers_lookup_frozen rand cfgByName validRows rest
          (rowInsert row n (some value)) chosenRow k row2 cr2 k2 hrest n
          hname_rest, rowLookup_rowInsert, if_pos rfl]
      · exact hmem n hn2

/-- **C1** (corrected).  When no member column of a dependency group declares
a validation pattern, the group-resolution step (`for name in group_cols`)
extracts all member values from the one reference row drawn at the start of
the step, which lies in the loaded reference table: the original claim's
single-shared-row invariant holds in that case.  (With validation patterns it
fails, because a mid-group redraw replaces `chosen_row` after earlier members
have already been extracted — see the counterexample.) -/
theorem c1_shared_row_when_unvalidated (rand : Nat → Nat)
    (cfgByName : String → Option Column) (validRows : List (List String))
    (names : List String) (row row2 : Row) (chosenRow cr2 : List String)
    (k k2 : Nat)
    (hrow : chosenRow ∈ validRows)
    (hnp : ∀ name ∈ names, ∀ cfg, cfgByName name = some cfg →
      cfg.validation_regex = none)
    (hnd : names.Nodup)
    (hpm : processMembers rand cfgByName validRows names row chosenRow k =
      .ok (row2, cr2, k2)) :
    ∃ sharedRow ∈ validRows, ∀ name ∈ names, ∃ cfg idx v,
      cfgByName name = some cfg ∧
      cfg.valid_values_csv_column_index = some idx ∧
      cellAt sharedRow idx = .ok v ∧
      rowLookup row2 name = some (some v) := by
  obtain ⟨_, _, hmem⟩ := pm_nopattern rand cfgByName validRows names row
    chosenRow k row2 cr2 k2 hnp hnd hpm
  exact ⟨chosenRow, hrow, hmem⟩

/-- Witness for the corrected C1 at a concrete two-member group without
validation patterns: both values are cells of the single shared row. -/
theorem c1_witness :
    ∃ sharedRow ∈ [["US", "NYC"], ["FR", "Paris"]],
      ∀ name ∈ ["a", "b"], ∃ cfg idx v,
        col_config_by_name
          [{ name := "a", position := 1, valid_values_csv := some "t", valid_values_csv_column_index := some 0, same_valid_value_row_as_column := some "b" },
           { name := "b", position := 2, valid_values_csv := some "t", valid_values_csv_column_index := some 1 }] name = some cfg ∧
        cfg.valid_values_csv_column_index = some idx ∧
        cellAt sharedRow idx = .ok v ∧
        rowLookup [("a", some "FR"), ("b", some "Paris")] name =
          some (some v) := by
  apply c1_shared_row_when_unvalidated (fun _ => 0)
    (col_config_by_name
      [{ name := "a", position := 1, valid_values_csv := some "t", valid_values_csv_column_index := some 0, same_valid_value_row_as_column := some "b" },
       { name := "b", position := 2, valid_values_csv := some "t", valid_values_csv_column_index := some 1 }])
    [["US", "NYC"], ["FR", "Paris"]] ["a", "b"] []
    [("a", some "FR"), ("b", some "Paris")] ["FR", "Paris"] ["FR", "Paris"]
    0 0
  · decide
  · intro name hname cfg hcfg
    fin_cases hname
    · have h2 : some ({ name := "a", position := 1, valid_values_csv := some "t", valid_values_csv_column_index := some 0, same_valid_value_row_as_column := some "b" } : Column) = some cfg := hcfg
      injection h2 with h
      exact h ▸ rfl
    · have h2 : some ({ name := "b", position := 2, valid_values_csv := some "t", valid_values_csv_column_index := some 1 } : Column) = some cfg := hcfg
      injection h2 with h
      exact h ▸ rfl
  · decide
  · rfl

/-- Counterexample to C1 as stated: with two linked columns `a` (index 0) and
`b` (index 1, pattern forcing `"Paris"`) over a table whose rows are
`US/NYC` and `FR/Paris`, the run succeeds with the row `a = "US"`,
`b = "Paris"` — a cross combination of two different reference rows: no
single table row has `"US"` at index 0 and `"Paris"` at index 1, although
`a` and `b` are members of one dependency group. -/
theorem c1_counterexample :
    generate_data (fun k => if k = 0 then 0 else 1)
      (fun p => if p = "t" then
        some [["country", "city"], ["US", "NYC"], ["FR", "Paris"]] else none)
      (fun _ => none)
      { file_size := some 1
        columns :=
          [{ name := "a", position := 1, valid_values_csv := some "t",
             valid_values_csv_column_index := some 0,
             same_valid_value_row_as_column := some "b" },
           { name := "b", position := 2, valid_values_csv := some "t",
             valid_values_csv_column_index := some 1,
             validation_regex := some (strRe "Paris") }] } =
      .ok [[("a", some "US"), ("b", some "Paris")]] ∧
    load_valid_values
      (fun p => if p = "t" then
        some [["country", "city"], ["US", "NYC"], ["FR", "Paris"]] else none)
      "t" = .ok [["US", "NYC"], ["FR", "Paris"]] ∧
    (∃ gid,
      List.lookup "a" (build_dependency_groups (sortCols
        [{ name := "a", position := 1, valid_values_csv := some "t",
           valid_values_csv_column_index := some 0,
           same_valid_value_row_as_column := some "b" },
         { name := "b", position := 2, valid_values_csv := some "t",
           valid_values_csv_column_index := some 1,
           validation_regex := some (strRe "Paris") }])).1 = some gid ∧
      List.lookup "b" (build_dependency_groups (sortCols
        [{ name := "a", position := 1, valid_values_csv := some "t",
           valid_values_csv_column_index := some 0,
           same_valid_value_row_as_column := some "b" },
         { name := "b", position := 2, valid_values_csv := some "t",
           valid_values_csv_column_index := some 1,
           validation_regex := some (strRe "Paris") }])).1 = some gid) ∧
    ¬ ∃ r ∈ [["US", "NYC"], ["FR", "Paris"]],
      r.get? 0 = some "US" ∧ r.get? 1 = some "Paris" :=
  ⟨rfl, rfl, ⟨0, rfl, rfl⟩, by decide⟩
